import Mathlib

set_option maxRecDepth 10000

/-!
Shallow embedding of BeebAsm's expression engine (src/expression.cpp) and a
verification of the specified properties against it.

Modelling conventions:
* C `double` values are modelled as exact rationals (`ℚ`); every numeric
  value appearing in the verified properties is exactly representable.
* C `int` / `unsigned int` arithmetic is modelled on `Int` / `Nat` with
  explicit reduction modulo `2^32` where the C code relies on 32-bit width.
* Exceptions are modelled with `Except AsmErr`; the mutable parser state
  (`m_column`, the two stacks, ...) is threaded explicitly and is also
  returned on the error path, matching C++ exception semantics where the
  object's fields retain their values when an exception propagates.
* Collaborators that live outside src/ (symbol table, PC, PRNG, strftime,
  libm, `SkipExpression`, `AdvanceAndCheckEndOfSubStatement`, ...) are
  modelled from the spec as fields of an explicit context `Ctx` or as
  definitions whose doc comment starts with `Modelled from the spec:`.
-/

/-! ### 32-bit machine integer helpers -/

/-- The unsigned 32-bit bit pattern of a C `int` value (two's complement). -/
def toBits32 (x : Int) : Nat := (x % 4294967296).toNat

/-- Reinterpret an unsigned 32-bit bit pattern as a signed C `int`
(the conversion `unsigned int` → `int` on two's-complement hosts). -/
def fromBits32 (u : Nat) : Int :=
  if u < 2147483648 then (u : Int) else (u : Int) - 4294967296

/-- C bitwise `&` on 32-bit `int`. -/
def intAnd (a b : Int) : Int := fromBits32 (Nat.land (toBits32 a) (toBits32 b))

/-- C bitwise `|` on 32-bit `int`. -/
def intOr (a b : Int) : Int := fromBits32 (Nat.lor (toBits32 a) (toBits32 b))

/-- C bitwise `^` on 32-bit `int`. -/
def intEor (a b : Int) : Int := fromBits32 (Nat.xor (toBits32 a) (toBits32 b))

/-- C bitwise `~` on a 32-bit `int`. -/
def intNot (a : Int) : Int := fromBits32 (Nat.xor (toBits32 a) 4294967295)

/-- static helper `LogicalShiftLeft` of expression.cpp:
`(int)((unsigned int)value << shift)`, the unsigned shift wrapping mod 2^32. -/
def LogicalShiftLeft (value : Int) (shift : Nat) : Int :=
  fromBits32 ((toBits32 value <<< shift) % 4294967296)

/-- static helper `ArithmeticShiftRight` of expression.cpp: unsigned right
shift, then 1-fill the vacated top bits when `value` is negative. -/
def ArithmeticShiftRight (value : Int) (shift : Nat) : Int :=
  let shifted := toBits32 value >>> shift
  let shifted :=
    if value < 0 then
      Nat.lor shifted ((4294967295 <<< (32 - shift)) % 4294967296)
    else shifted
  fromBits32 shifted

/-- Truncation toward zero, the behaviour of C `static_cast<int>(double)` and
`static_cast<unsigned int>(double)` on in-range values. -/
def ratTrunc (q : ℚ) : Int := q.num.tdiv q.den

/-! ### Values, errors, handler identifiers -/

/-- The dual-typed `Value` of the engine: Number (double) or String. -/
inductive Value where
  | num (n : ℚ)
  | str (s : List Char)
deriving DecidableEq, Repr

/-- The error taxonomy of asmexception.h, as used by expression.cpp.
`assertFailed` models a C `assert`; it is not an exception the original can
throw, and it only arises from states unreachable from `EvaluateExpression`. -/
inductive AsmErr where
  | invalidCharacter
  | missingQuote
  | symbolNotDefined
  | emptyExpression
  | mismatchedParentheses
  | parameterCount
  | expressionTooComplex
  | typeMismatch
  | missingValue
  | divisionByZero
  | numberTooBig
  | illegalOperation
  | outOfIntegerRange
  | timeResultTooBig
  | assertFailed
deriving DecidableEq, Repr

/-- Result of a libm call together with the observed `errno` condition. -/
inductive Errno where
  | noErr
  | erange
  | edom
deriving DecidableEq, Repr

/-- Identifiers for the `LineParser::Eval...` member functions referenced by
the two operator tables. -/
inductive Handler where
  | add | subtract | multiply | divide | power | div | mod
  | shiftLeft | shiftRight | and | or | eor
  | equal | notEqual | lessThanOrEqual | moreThanOrEqual | lessThan | moreThan
  | negate | posate | not | lo | hi
  | sin | cos | tan | arcSin | arcCos | arcTan
  | sqrt | degToRad | radToDeg | int | abs | sgn | rnd
  | log | ln | exp | time | str | strHex | val | eval
  | len | chr | asc | mid | left | right | string | upper | lower
deriving DecidableEq, Repr

/-- Number of values a handler pops from the value stack (it pushes one). -/
def consumes : Handler → Nat
  | .add | .subtract | .multiply | .divide | .power | .div | .mod => 2
  | .shiftLeft | .shiftRight | .and | .or | .eor => 2
  | .equal | .notEqual | .lessThanOrEqual | .moreThanOrEqual => 2
  | .lessThan | .moreThan => 2
  | .left | .right | .string => 2
  | .mid => 3
  | _ => 1

/-- An entry of the operator tables: `LineParser::Operator`. -/
structure Operator where
  token : List Char
  precedence : Int
  parameterCount : Int
  handler : Option Handler
deriving DecidableEq, Repr

/-- TYPE from the source: what the parser expects next. -/
inductive TYPE where
  | valueOrUnary
  | binary
deriving DecidableEq, Repr

/-- The per-call evaluator state of `LineParser::EvaluateExpression`: the
line and cursor, both stacks (head = top of stack), the bracket and pending
comma counters, the `expected` flag, plus a cursor into the modelled PRNG
stream (the PRNG's hidden state, external to this file's sources). -/
structure PState where
  line : List Char
  column : Nat
  valueStack : List Value
  opStack : List Operator
  bracketCount : Int
  pendingCommaCount : Int
  expected : TYPE
  randIdx : Nat
deriving DecidableEq, Repr

/-- External collaborators of the engine (spec §6), modelled from the spec:
the symbol table, PC, phase flag, expression skipper, PRNG stream, strftime,
the numeric printer, strtod, and the libm functions with their `errno`
outcome. -/
structure Ctx where
  symbols : List Char → Option Value
  pc : Int
  firstPass : Bool
  skipExpr : Int → Bool → Nat → Nat
  randSeq : Nat → Nat
  randMax : Nat
  fmtTime : List Char → List Char
  printNum : ℚ → List Char
  strtodF : List Char → ℚ
  constPi : ℚ
  sinF : ℚ → ℚ
  cosF : ℚ → ℚ
  tanF : ℚ → ℚ
  asinF : ℚ → ℚ × Errno
  acosF : ℚ → ℚ × Errno
  atanF : ℚ → ℚ × Errno
  log10F : ℚ → ℚ × Errno
  logF : ℚ → ℚ × Errno
  expF : ℚ → ℚ × Errno
  sqrtF : ℚ → ℚ × Errno
  powF : ℚ → ℚ → ℚ × Errno

/-! ### Shared numeric utilities of the source -/

/-- `LineParser::ConvertDoubleToInt` (expression.cpp:751): accept doubles in
`[INT_MIN, UINT_MAX]`; values `≤ INT_MAX` cast directly to `int`, larger
values cast via `unsigned int` and are reinterpreted as signed. -/
def ConvertDoubleToInt (value : ℚ) : Except AsmErr Int :=
  if value < -2147483648 ∨ value > 4294967295 then
    .error .outOfIntegerRange
  else if value ≤ 2147483647 then
    .ok (ratTrunc value)
  else
    .ok (fromBits32 (ratTrunc value).toNat)

/-- Tags agree (`value1.GetType() == value2.GetType()`). -/
def sameType : Value → Value → Bool
  | .num _, .num _ => true
  | .str _, .str _ => true
  | _, _ => false

/-- Lexicographic comparison over unsigned bytes, −1/0/+1. -/
def lexCmp : List Char → List Char → Int
  | [], [] => 0
  | [], _ :: _ => -1
  | _ :: _, [] => 1
  | a :: as, b :: bs =>
    if a.toNat < b.toNat then -1
    else if b.toNat < a.toNat then 1
    else lexCmp as bs

/-- Modelled from the spec: `Value::Compare` (value.h is not among the
sources; spec §4.A). Number compare is the natural order, string compare is
lexicographic over unsigned bytes; its callers in expression.cpp only invoke
it on same-tagged values (mixed tags are rejected earlier), so the mixed case
is arbitrary. -/
def Compare (v1 v2 : Value) : Int :=
  match v1, v2 with
  | .num a, .num b => if a < b then -1 else if a = b then 0 else 1
  | .str a, .str b => lexCmp a b
  | _, _ => 0

/-- Modelled from the spec: `String::SubString` (§4.B), clamping a too-long
length per the §9 note on the source's unchecked substring primitive. -/
def subString (s : List Char) (start len : Nat) : List Char :=
  (s.drop start).take len

/-- Modelled from the spec: `String::Repeat` (§4.B). -/
def strRepeat (s : List Char) : Nat → List Char
  | 0 => []
  | n + 1 => s ++ strRepeat s n

/-- Modelled from the spec: `Ascii::ToUpper` — ASCII-only case mapping. -/
def asciiToUpper (c : Char) : Char :=
  if 'a' ≤ c ∧ c ≤ 'z' then Char.ofNat (c.toNat - 32) else c

/-- Modelled from the spec: `Ascii::ToLower` — ASCII-only case mapping. -/
def asciiToLower (c : Char) : Char :=
  if 'A' ≤ c ∧ c ≤ 'Z' then Char.ofNat (c.toNat + 32) else c

/-- Hex digits of the 32-bit pattern, uppercase, no prefix (the behaviour of
`stream << std::hex << std::uppercase << i` on an `int`). -/
def natHexUpper (n : Nat) : List Char :=
  (Nat.toDigits 16 n).map asciiToUpper

/-! ### The Eval... handlers (expression.cpp:768-1705)

Each handler takes and returns the full parser state (they mutate the value
stack and, for `EvalRnd`, consume from the PRNG stream); errors are returned
alongside the mutated state, as C++ field updates survive a `throw`.  The
`StackTop...` helper checks of the source are inlined into the stack pattern
matches: a too-short stack yields `missingValue`, a wrongly-tagged operand
`typeMismatch`, exactly as the helpers throw them. -/

/-- `LineParser::EvalAdd`. -/
def EvalAdd (st : PState) : PState × Except AsmErr Unit :=
  match st.valueStack with
  | .num b :: .num a :: rest =>
    ({ st with valueStack := .num (a + b) :: rest }, .ok ())
  | .str b :: .str a :: rest =>
    ({ st with valueStack := .str (a ++ b) :: rest }, .ok ())
  | _ :: _ :: _ => (st, .error .typeMismatch)
  | _ => (st, .error .missingValue)

/-- `LineParser::EvalSubtract`. -/
def EvalSubtract (st : PState) : PState × Except AsmErr Unit :=
  match st.valueStack with
  | .num b :: .num a :: rest =>
    ({ st with valueStack := .num (a - b) :: rest }, .ok ())
  | _ :: _ :: _ => (st, .error .typeMismatch)
  | _ => (st, .error .missingValue)

/-- `LineParser::EvalMultiply`. -/
def EvalMultiply (st : PState) : PState × Except AsmErr Unit :=
  match st.valueStack with
  | .num b :: .num a :: rest =>
    ({ st with valueStack := .num (a * b) :: rest }, .ok ())
  | _ :: _ :: _ => (st, .error .typeMismatch)
  | _ => (st, .error .missingValue)

/-- `LineParser::EvalDivide`. -/
def EvalDivide (st : PState) : PState × Except AsmErr Unit :=
  match st.valueStack with
  | .num b :: .num a :: rest =>
    if b = 0 then (st, .error .divisionByZero)
    else ({ st with valueStack := .num (a / b) :: rest }, .ok ())
  | _ :: _ :: _ => (st, .error .typeMismatch)
  | _ => (st, .error .missingValue)

/-- `LineParser::EvalPower`: `pow` from libm, with the errno checks made
after the stack has already been rewritten (as in the source). -/
def EvalPower (ctx : Ctx) (st : PState) : PState × Except AsmErr Unit :=
  match st.valueStack with
  | .num b :: .num a :: rest =>
    let r := ctx.powF a b
    let st' := { st with valueStack := .num r.1 :: rest }
    match r.2 with
    | .erange => (st', .error .numberTooBig)
    | .edom => (st', .error .illegalOperation)
    | .noErr => (st', .ok ())
  | _ :: _ :: _ => (st, .error .typeMismatch)
  | _ => (st, .error .missingValue)

/-- `LineParser::EvalDiv`: C `int` division (truncation toward zero). -/
def EvalDiv (st : PState) : PState × Except AsmErr Unit :=
  match st.valueStack with
  | .num b :: .num a :: rest =>
    match ConvertDoubleToInt a with
    | .error e => (st, .error e)
    | .ok ia =>
      match ConvertDoubleToInt b with
      | .error e => (st, .error e)
      | .ok ib =>
        if ib = 0 then (st, .error .divisionByZero)
        else ({ st with valueStack := .num ((ia.tdiv ib : Int) : ℚ) :: rest }, .ok ())
  | _ :: _ :: _ => (st, .error .typeMismatch)
  | _ => (st, .error .missingValue)

/-- `LineParser::EvalMod`: C `int` remainder (sign of the dividend). -/
def EvalMod (st : PState) : PState × Except AsmErr Unit :=
  match st.valueStack with
  | .num b :: .num a :: rest =>
    match ConvertDoubleToInt a with
    | .error e => (st, .error e)
    | .ok ia =>
      match ConvertDoubleToInt b with
      | .error e => (st, .error e)
      | .ok ib =>
        if ib = 0 then (st, .error .divisionByZero)
        else ({ st with valueStack := .num ((ia.tmod ib : Int) : ℚ) :: rest }, .ok ())
  | _ :: _ :: _ => (st, .error .typeMismatch)
  | _ => (st, .error .missingValue)

/-- `LineParser::EvalShiftLeft` (expression.cpp:923). -/
def EvalShiftLeft (st : PState) : PState × Except AsmErr Unit :=
  match st.valueStack with
  | .num b :: .num a :: rest =>
    match ConvertDoubleToInt a with
    | .error e => (st, .error e)
    | .ok val =>
      match ConvertDoubleToInt b with
      | .error e => (st, .error e)
      | .ok shift =>
        let result : Int :=
          if shift > 31 ∨ shift < -31 then 0
          else if shift > 0 then LogicalShiftLeft val shift.toNat
          else if shift = 0 then val
          else ArithmeticShiftRight val (-shift).toNat
        ({ st with valueStack := .num (result : ℚ) :: rest }, .ok ())
  | _ :: _ :: _ => (st, .error .typeMismatch)
  | _ => (st, .error .missingValue)

/-- `LineParser::EvalShiftRight` (expression.cpp:959). -/
def EvalShiftRight (st : PState) : PState × Except AsmErr Unit :=
  match st.valueStack with
  | .num b :: .num a :: rest =>
    match ConvertDoubleToInt a with
    | .error e => (st, .error e)
    | .ok val =>
      match ConvertDoubleToInt b with
      | .error e => (st, .error e)
      | .ok shift =>
        let result : Int :=
          if shift > 31 ∨ shift < -31 then 0
          else if shift > 0 then ArithmeticShiftRight val shift.toNat
          else if shift = 0 then val
          else LogicalShiftLeft val (-shift).toNat
        ({ st with valueStack := .num (result : ℚ) :: rest }, .ok ())
  | _ :: _ :: _ => (st, .error .typeMismatch)
  | _ => (st, .error .missingValue)

/-- `LineParser::EvalAnd`. -/
def EvalAnd (st : PState) : PState × Except AsmErr Unit :=
  match st.valueStack with
  | .num b :: .num a :: rest =>
    match ConvertDoubleToInt a with
    | .error e => (st, .error e)
    | .ok ia =>
      match ConvertDoubleToInt b with
      | .error e => (st, .error e)
      | .ok ib => ({ st with valueStack := .num ((intAnd ia ib : Int) : ℚ) :: rest }, .ok ())
  | _ :: _ :: _ => (st, .error .typeMismatch)
  | _ => (st, .error .missingValue)

/-- `LineParser::EvalOr`. -/
def EvalOr (st : PState) : PState × Except AsmErr Unit :=
  match st.valueStack with
  | .num b :: .num a :: rest =>
    match ConvertDoubleToInt a with
    | .error e => (st, .error e)
    | .ok ia =>
      match ConvertDoubleToInt b with
      | .error e => (st, .error e)
      | .ok ib => ({ st with valueStack := .num ((intOr ia ib : Int) : ℚ) :: rest }, .ok ())
  | _ :: _ :: _ => (st, .error .typeMismatch)
  | _ => (st, .error .missingValue)

/-- `LineParser::EvalEor`. -/
def EvalEor (st : PState) : PState × Except AsmErr Unit :=
  match st.valueStack with
  | .num b :: .num a :: rest =>
    match ConvertDoubleToInt a with
    | .error e => (st, .error e)
    | .ok ia =>
      match ConvertDoubleToInt b with
      | .error e => (st, .error e)
      | .ok ib => ({ st with valueStack := .num ((intEor ia ib : Int) : ℚ) :: rest }, .ok ())
  | _ :: _ :: _ => (st, .error .typeMismatch)
  | _ => (st, .error .missingValue)

/-- `LineParser::EvalEqual`: −1 when `Compare == 0`, else 0. -/
def EvalEqual (st : PState) : PState × Except AsmErr Unit :=
  match st.valueStack with
  | v2 :: v1 :: rest =>
    if sameType v1 v2 then
      ({ st with valueStack := .num (if Compare v1 v2 = 0 then -1 else 0) :: rest }, .ok ())
    else (st, .error .typeMismatch)
  | _ => (st, .error .missingValue)

/-- `LineParser::EvalNotEqual`. -/
def EvalNotEqual (st : PState) : PState × Except AsmErr Unit :=
  match st.valueStack with
  | v2 :: v1 :: rest =>
    if sameType v1 v2 then
      ({ st with valueStack := .num (if Compare v1 v2 ≠ 0 then -1 else 0) :: rest }, .ok ())
    else (st, .error .typeMismatch)
  | _ => (st, .error .missingValue)

/-- `LineParser::EvalLessThanOrEqual`. -/
def EvalLessThanOrEqual (st : PState) : PState × Except AsmErr Unit :=
  match st.valueStack with
  | v2 :: v1 :: rest =>
    if sameType v1 v2 then
      ({ st with valueStack := .num (if Compare v1 v2 ≤ 0 then -1 else 0) :: rest }, .ok ())
    else (st, .error .typeMismatch)
  | _ => (st, .error .missingValue)

/-- `LineParser::EvalMoreThanOrEqual`. -/
def EvalMoreThanOrEqual (st : PState) : PState × Except AsmErr Unit :=
  match st.valueStack with
  | v2 :: v1 :: rest =>
    if sameType v1 v2 then
      ({ st with valueStack := .num (if Compare v1 v2 ≥ 0 then -1 else 0) :: rest }, .ok ())
    else (st, .error .typeMismatch)
  | _ => (st, .error .missingValue)

/-- `LineParser::EvalLessThan`. -/
def EvalLessThan (st : PState) : PState × Except AsmErr Unit :=
  match st.valueStack with
  | v2 :: v1 :: rest =>
    if sameType v1 v2 then
      ({ st with valueStack := .num (if Compare v1 v2 < 0 then -1 else 0) :: rest }, .ok ())
    else (st, .error .typeMismatch)
  | _ => (st, .error .missingValue)

/-- `LineParser::EvalMoreThan`. -/
def EvalMoreThan (st : PState) : PState × Except AsmErr Unit :=
  match st.valueStack with
  | v2 :: v1 :: rest =>
    if sameType v1 v2 then
      ({ st with valueStack := .num (if Compare v1 v2 > 0 then -1 else 0) :: rest }, .ok ())
    else (st, .error .typeMismatch)
  | _ => (st, .error .missingValue)

/-- `LineParser::EvalNegate` (expression.cpp:1121). -/
def EvalNegate (st : PState) : PState × Except AsmErr Unit :=
  match st.valueStack with
  | .num a :: rest => ({ st with valueStack := .num (-a) :: rest }, .ok ())
  | _ :: _ => (st, .error .typeMismatch)
  | [] => (st, .error .missingValue)

/-- `LineParser::EvalNot`. -/
def EvalNot (st : PState) : PState × Except AsmErr Unit :=
  match st.valueStack with
  | .num a :: rest =>
    match ConvertDoubleToInt a with
    | .error e => (st, .error e)
    | .ok ia => ({ st with valueStack := .num ((intNot ia : Int) : ℚ) :: rest }, .ok ())
  | _ :: _ => (st, .error .typeMismatch)
  | [] => (st, .error .missingValue)

/-- `LineParser::EvalPosate` (expression.cpp:1146): checks the stack is
non-empty and then does absolutely nothing. -/
def EvalPosate (st : PState) : PState × Except AsmErr Unit :=
  if st.valueStack.length < 1 then (st, .error .missingValue)
  else (st, .ok ())

/-- `LineParser::EvalLo` (expression.cpp:1162): `StackTopInt() & 0xFF`. -/
def EvalLo (st : PState) : PState × Except AsmErr Unit :=
  match st.valueStack with
  | .num a :: rest =>
    match ConvertDoubleToInt a with
    | .error e => (st, .error e)
    | .ok ia => ({ st with valueStack := .num ((intAnd ia 255 : Int) : ℚ) :: rest }, .ok ())
  | _ :: _ => (st, .error .typeMismatch)
  | [] => (st, .error .missingValue)

/-- `LineParser::EvalHi` (expression.cpp:1175): `(StackTopInt() & 0xffff) >> 8`.
The shifted operand is non-negative, so the C arithmetic shift is a `Nat`
shift. -/
def EvalHi (st : PState) : PState × Except AsmErr Unit :=
  match st.valueStack with
  | .num a :: rest =>
    match ConvertDoubleToInt a with
    | .error e => (st, .error e)
    | .ok ia =>
      ({ st with valueStack := .num (((intAnd ia 65535).toNat >>> 8 : Nat) : ℚ) :: rest }, .ok ())
  | _ :: _ => (st, .error .typeMismatch)
  | [] => (st, .error .missingValue)

/-- `LineParser::EvalSin` (no errno check in the source). -/
def EvalSin (ctx : Ctx) (st : PState) : PState × Except AsmErr Unit :=
  match st.valueStack with
  | .num a :: rest => ({ st with valueStack := .num (ctx.sinF a) :: rest }, .ok ())
  | _ :: _ => (st, .error .typeMismatch)
  | [] => (st, .error .missingValue)

/-- `LineParser::EvalCos`. -/
def EvalCos (ctx : Ctx) (st : PState) : PState × Except AsmErr Unit :=
  match st.valueStack with
  | .num a :: rest => ({ st with valueStack := .num (ctx.cosF a) :: rest }, .ok ())
  | _ :: _ => (st, .error .typeMismatch)
  | [] => (st, .error .missingValue)

/-- `LineParser::EvalTan`. -/
def EvalTan (ctx : Ctx) (st : PState) : PState × Except AsmErr Unit :=
  match st.valueStack with
  | .num a :: rest => ({ st with valueStack := .num (ctx.tanF a) :: rest }, .ok ())
  | _ :: _ => (st, .error .typeMismatch)
  | [] => (st, .error .missingValue)

/-- Shared shape of the one-argument libm handlers that check `errno` after
writing the result back (EvalArcSin/ArcCos/ArcTan/Log/Ln/Exp/Sqrt). `bad`
lists the errno conditions the handler turns into `illegalOperation`. -/
def evalMathErr (f : ℚ → ℚ × Errno) (bad : List Errno) (st : PState) :
    PState × Except AsmErr Unit :=
  match st.valueStack with
  | .num a :: rest =>
    let r := f a
    let st' := { st with valueStack := .num r.1 :: rest }
    if r.2 ∈ bad then (st', .error .illegalOperation) else (st', .ok ())
  | _ :: _ => (st, .error .typeMismatch)
  | [] => (st, .error .missingValue)

/-- `LineParser::EvalArcSin`. -/
def EvalArcSin (ctx : Ctx) (st : PState) : PState × Except AsmErr Unit :=
  evalMathErr ctx.asinF [.edom] st

/-- `LineParser::EvalArcCos`. -/
def EvalArcCos (ctx : Ctx) (st : PState) : PState × Except AsmErr Unit :=
  evalMathErr ctx.acosF [.edom] st

/-- `LineParser::EvalArcTan`. -/
def EvalArcTan (ctx : Ctx) (st : PState) : PState × Except AsmErr Unit :=
  evalMathErr ctx.atanF [.edom] st

/-- `LineParser::EvalLog` (base 10; EDOM or ERANGE → illegal). -/
def EvalLog (ctx : Ctx) (st : PState) : PState × Except AsmErr Unit :=
  evalMathErr ctx.log10F [.edom, .erange] st

/-- `LineParser::EvalLn`. -/
def EvalLn (ctx : Ctx) (st : PState) : PState × Except AsmErr Unit :=
  evalMathErr ctx.logF [.edom, .erange] st

/-- `LineParser::EvalExp` (ERANGE → illegal). -/
def EvalExp (ctx : Ctx) (st : PState) : PState × Except AsmErr Unit :=
  evalMathErr ctx.expF [.erange] st

/-- `LineParser::EvalSqrt`. -/
def EvalSqrt (ctx : Ctx) (st : PState) : PState × Except AsmErr Unit :=
  evalMathErr ctx.sqrtF [.edom] st

/-- `LineParser::EvalDegToRad`: `x * pi / 180`. -/
def EvalDegToRad (ctx : Ctx) (st : PState) : PState × Except AsmErr Unit :=
  match st.valueStack with
  | .num a :: rest =>
    ({ st with valueStack := .num (a * ctx.constPi / 180) :: rest }, .ok ())
  | _ :: _ => (st, .error .typeMismatch)
  | [] => (st, .error .missingValue)

/-- `LineParser::EvalRadToDeg`: `x * 180 / pi`. -/
def EvalRadToDeg (ctx : Ctx) (st : PState) : PState × Except AsmErr Unit :=
  match st.valueStack with
  | .num a :: rest =>
    ({ st with valueStack := .num (a * 180 / ctx.constPi) :: rest }, .ok ())
  | _ :: _ => (st, .error .typeMismatch)
  | [] => (st, .error .missingValue)

/-- `LineParser::EvalInt`: coerce through `ConvertDoubleToInt` and cast back. -/
def EvalInt (st : PState) : PState × Except AsmErr Unit :=
  match st.valueStack with
  | .num a :: rest =>
    match ConvertDoubleToInt a with
    | .error e => (st, .error e)
    | .ok ia => ({ st with valueStack := .num ((ia : Int) : ℚ) :: rest }, .ok ())
  | _ :: _ => (st, .error .typeMismatch)
  | [] => (st, .error .missingValue)

/-- `LineParser::EvalAbs`. -/
def EvalAbs (st : PState) : PState × Except AsmErr Unit :=
  match st.valueStack with
  | .num a :: rest =>
    ({ st with valueStack := .num (if a < 0 then -a else a) :: rest }, .ok ())
  | _ :: _ => (st, .error .typeMismatch)
  | [] => (st, .error .missingValue)

/-- `LineParser::EvalSgn`. -/
def EvalSgn (st : PState) : PState × Except AsmErr Unit :=
  match st.valueStack with
  | .num a :: rest =>
    ({ st with valueStack := .num (if a < 0 then -1 else if a > 0 then 1 else 0) :: rest }, .ok ())
  | _ :: _ => (st, .error .typeMismatch)
  | [] => (st, .error .missingValue)

/-- `LineParser::EvalRnd` (expression.cpp:1404): `RND(n)`; consumes one value
of the PRNG stream. -/
def EvalRnd (ctx : Ctx) (st : PState) : PState × Except AsmErr Unit :=
  match st.valueStack with
  | .num a :: rest =>
    if a < 1 then (st, .error .illegalOperation)
    else if a = 1 then
      let r : ℚ := mkRat (ctx.randSeq st.randIdx) (ctx.randMax + 1)
      ({ st with valueStack := .num r :: rest, randIdx := st.randIdx + 1 }, .ok ())
    else
      let r : ℚ := mkRat ((ctx.randSeq st.randIdx : Int) * a.num) ((ctx.randMax + 1) * a.den)
      match ConvertDoubleToInt r with
      | .error e => ({ st with randIdx := st.randIdx + 1 }, .error e)
      | .ok ir =>
        ({ st with valueStack := .num ((ir : Int) : ℚ) :: rest, randIdx := st.randIdx + 1 }, .ok ())
  | _ :: _ => (st, .error .typeMismatch)
  | [] => (st, .error .missingValue)

/-- `LineParser::FormatAssemblyTime`: strftime on the assembly time (both
external), empty result → `TimeResultTooBig`. -/
def FormatAssemblyTime (ctx : Ctx) (fmt : List Char) : Except AsmErr (List Char) :=
  let r := ctx.fmtTime fmt
  if r.length = 0 then .error .timeResultTooBig else .ok r

/-- `LineParser::EvalTime`. -/
def EvalTime (ctx : Ctx) (st : PState) : PState × Except AsmErr Unit :=
  match st.valueStack with
  | .str s :: rest =>
    match FormatAssemblyTime ctx s with
    | .error e => (st, .error e)
    | .ok r => ({ st with valueStack := .str r :: rest }, .ok ())
  | _ :: _ => (st, .error .typeMismatch)
  | [] => (st, .error .missingValue)

/-- `LineParser::EvalStr`: number → string via the external printer. -/
def EvalStr (ctx : Ctx) (st : PState) : PState × Except AsmErr Unit :=
  match st.valueStack with
  | .num a :: rest => ({ st with valueStack := .str (ctx.printNum a) :: rest }, .ok ())
  | _ :: _ => (st, .error .typeMismatch)
  | [] => (st, .error .missingValue)

/-- `LineParser::EvalStrHex`: int → uppercase hex (negative ints print their
unsigned 32-bit pattern, as iostreams do). -/
def EvalStrHex (st : PState) : PState × Except AsmErr Unit :=
  match st.valueStack with
  | .num a :: rest =>
    match ConvertDoubleToInt a with
    | .error e => (st, .error e)
    | .ok ia => ({ st with valueStack := .str (natHexUpper (toBits32 ia)) :: rest }, .ok ())
  | _ :: _ => (st, .error .typeMismatch)
  | [] => (st, .error .missingValue)

/-- `LineParser::EvalVal`: strtod on the string (external). -/
def EvalVal (ctx : Ctx) (st : PState) : PState × Except AsmErr Unit :=
  match st.valueStack with
  | .str s :: rest => ({ st with valueStack := .num (ctx.strtodF s) :: rest }, .ok ())
  | _ :: _ => (st, .error .typeMismatch)
  | [] => (st, .error .missingValue)

/-- `LineParser::EvalLen`. -/
def EvalLen (st : PState) : PState × Except AsmErr Unit :=
  match st.valueStack with
  | .str s :: rest => ({ st with valueStack := .num (s.length : ℚ) :: rest }, .ok ())
  | _ :: _ => (st, .error .typeMismatch)
  | [] => (st, .error .missingValue)

/-- `LineParser::EvalChr` (expression.cpp:1534): `CHR$(n)`, `n ∈ [0,255]`. -/
def EvalChr (st : PState) : PState × Except AsmErr Unit :=
  match st.valueStack with
  | .num a :: rest =>
    match ConvertDoubleToInt a with
    | .error e => (st, .error e)
    | .ok ia =>
      if ia < 0 ∨ ia > 255 then (st, .error .illegalOperation)
      else ({ st with valueStack := .str [Char.ofNat ia.toNat] :: rest }, .ok ())
  | _ :: _ => (st, .error .typeMismatch)
  | [] => (st, .error .missingValue)

/-- `LineParser::EvalAsc` (expression.cpp:1551): first byte, unsigned. -/
def EvalAsc (st : PState) : PState × Except AsmErr Unit :=
  match st.valueStack with
  | .str s :: rest =>
    match s with
    | [] => (st, .error .illegalOperation)
    | c :: _ => ({ st with valueStack := .num (c.toNat : ℚ) :: rest }, .ok ())
  | _ :: _ => (st, .error .typeMismatch)
  | [] => (st, .error .missingValue)

/-- `LineParser::EvalMid` (expression.cpp:1568): `MID$(s, i, k)`; the stack
shrinks by two before the coercions, as in the source. -/
def EvalMid (st : PState) : PState × Except AsmErr Unit :=
  match st.valueStack with
  | .num c :: .num b :: .str a :: rest =>
    let st' := { st with valueStack := .str a :: rest }
    match ConvertDoubleToInt b with
    | .error e => (st', .error e)
    | .ok ib =>
      match ConvertDoubleToInt c with
      | .error e => (st', .error e)
      | .ok len =>
        let index := ib - 1
        if index < 0 ∨ index > (a.length : Int) ∨ len < 0 then
          (st', .error .illegalOperation)
        else
          ({ st with valueStack := .str (subString a index.toNat len.toNat) :: rest }, .ok ())
  | _ :: _ :: _ :: _ => (st, .error .typeMismatch)
  | _ => (st, .error .missingValue)

/-- `LineParser::EvalLeft` (expression.cpp:1600). -/
def EvalLeft (st : PState) : PState × Except AsmErr Unit :=
  match st.valueStack with
  | .num b :: .str a :: rest =>
    let st' := { st with valueStack := .str a :: rest }
    match ConvertDoubleToInt b with
    | .error e => (st', .error e)
    | .ok count =>
      if count < 0 ∨ count > (a.length : Int) then (st', .error .illegalOperation)
      else ({ st with valueStack := .str (subString a 0 count.toNat) :: rest }, .ok ())
  | _ :: _ :: _ => (st, .error .typeMismatch)
  | _ => (st, .error .missingValue)

/-- `LineParser::EvalRight` (expression.cpp:1630). -/
def EvalRight (st : PState) : PState × Except AsmErr Unit :=
  match st.valueStack with
  | .num b :: .str a :: rest =>
    let st' := { st with valueStack := .str a :: rest }
    match ConvertDoubleToInt b with
    | .error e => (st', .error e)
    | .ok count =>
      if count < 0 ∨ count > (a.length : Int) then (st', .error .illegalOperation)
      else
        ({ st with valueStack := .str (subString a (a.length - count.toNat) count.toNat) :: rest },
          .ok ())
  | _ :: _ :: _ => (st, .error .typeMismatch)
  | _ => (st, .error .missingValue)

/-- `LineParser::EvalString` (expression.cpp:1661): `STRING$(n, s)`; the
product bound is computed in `unsigned int`, i.e. modulo 2^32. -/
def EvalString (st : PState) : PState × Except AsmErr Unit :=
  match st.valueStack with
  | .str b :: .num a :: rest =>
    let st' := { st with valueStack := .num a :: rest }
    match ConvertDoubleToInt a with
    | .error e => (st', .error e)
    | .ok count =>
      if count < 0 ∨ count ≥ 65536 ∨ b.length ≥ 65536 ∨
          (toBits32 count * b.length) % 4294967296 ≥ 65536 then
        (st', .error .illegalOperation)
      else ({ st with valueStack := .str (strRepeat b count.toNat) :: rest }, .ok ())
  | _ :: _ :: _ => (st, .error .typeMismatch)
  | _ => (st, .error .missingValue)

/-- `LineParser::EvalUpper`. -/
def EvalUpper (st : PState) : PState × Except AsmErr Unit :=
  match st.valueStack with
  | .str s :: rest => ({ st with valueStack := .str (s.map asciiToUpper) :: rest }, .ok ())
  | _ :: _ => (st, .error .typeMismatch)
  | [] => (st, .error .missingValue)

/-- `LineParser::EvalLower`. -/
def EvalLower (st : PState) : PState × Except AsmErr Unit :=
  match st.valueStack with
  | .str s :: rest => ({ st with valueStack := .str (s.map asciiToLower) :: rest }, .ok ())
  | _ :: _ => (st, .error .typeMismatch)
  | [] => (st, .error .missingValue)

/-! ### The operator tables (expression.cpp:50-123) -/

/-- `LineParser::m_gaBinaryOperatorTable`, in source order. -/
def binaryOperatorTable : List Operator :=
  [ ⟨")".toList,  -1, 0, none⟩,
    ⟨"]".toList,  -1, 0, none⟩,
    ⟨",".toList,  -1, 0, none⟩,
    ⟨"^".toList,   7, 0, some .power⟩,
    ⟨"*".toList,   6, 0, some .multiply⟩,
    ⟨"/".toList,   6, 0, some .divide⟩,
    ⟨"%".toList,   6, 0, some .mod⟩,
    ⟨"DIV".toList, 6, 0, some .div⟩,
    ⟨"MOD".toList, 6, 0, some .mod⟩,
    ⟨"<<".toList,  6, 0, some .shiftLeft⟩,
    ⟨">>".toList,  6, 0, some .shiftRight⟩,
    ⟨"+".toList,   5, 0, some .add⟩,
    ⟨"-".toList,   5, 0, some .subtract⟩,
    ⟨"==".toList,  4, 0, some .equal⟩,
    ⟨"=".toList,   4, 0, some .equal⟩,
    ⟨"<>".toList,  4, 0, some .notEqual⟩,
    ⟨"!=".toList,  4, 0, some .notEqual⟩,
    ⟨"<=".toList,  4, 0, some .lessThanOrEqual⟩,
    ⟨">=".toList,  4, 0, some .moreThanOrEqual⟩,
    ⟨"<".toList,   4, 0, some .lessThan⟩,
    ⟨">".toList,   4, 0, some .moreThan⟩,
    ⟨"AND".toList, 3, 0, some .and⟩,
    ⟨"OR".toList,  2, 0, some .or⟩,
    ⟨"EOR".toList, 2, 0, some .eor⟩ ]

/-- `LineParser::m_gaUnaryOperatorTable`, in source order. -/
def unaryOperatorTable : List Operator :=
  [ ⟨"(".toList,  -1, 0, none⟩,
    ⟨"[".toList,  -1, 0, none⟩,
    ⟨"-".toList,        8, 0, some .negate⟩,
    ⟨"+".toList,        8, 0, some .posate⟩,
    ⟨"HI(".toList,     10, 1, some .hi⟩,
    ⟨"LO(".toList,     10, 1, some .lo⟩,
    ⟨">".toList,       10, 0, some .hi⟩,
    ⟨"<".toList,       10, 0, some .lo⟩,
    ⟨"SIN(".toList,    10, 1, some .sin⟩,
    ⟨"COS(".toList,    10, 1, some .cos⟩,
    ⟨"TAN(".toList,    10, 1, some .tan⟩,
    ⟨"ASN(".toList,    10, 1, some .arcSin⟩,
    ⟨"ACS(".toList,    10, 1, some .arcCos⟩,
    ⟨"ATN(".toList,    10, 1, some .arcTan⟩,
    ⟨"SQR(".toList,    10, 1, some .sqrt⟩,
    ⟨"RAD(".toList,    10, 1, some .degToRad⟩,
    ⟨"DEG(".toList,    10, 1, some .radToDeg⟩,
    ⟨"INT(".toList,    10, 1, some .int⟩,
    ⟨"ABS(".toList,    10, 1, some .abs⟩,
    ⟨"SGN(".toList,    10, 1, some .sgn⟩,
    ⟨"RND(".toList,    10, 1, some .rnd⟩,
    ⟨"NOT(".toList,    10, 1, some .not⟩,
    ⟨"LOG(".toList,    10, 1, some .log⟩,
    ⟨"LN(".toList,     10, 1, some .ln⟩,
    ⟨"EXP(".toList,    10, 1, some .exp⟩,
    ⟨"TIME$(".toList,  10, 1, some .time⟩,
    ⟨"STR$(".toList,   10, 1, some .str⟩,
    ⟨"STR$~(".toList,  10, 1, some .strHex⟩,
    ⟨"VAL(".toList,    10, 1, some .val⟩,
    ⟨"EVAL(".toList,   10, 1, some .eval⟩,
    ⟨"LEN(".toList,    10, 1, some .len⟩,
    ⟨"CHR$(".toList,   10, 1, some .chr⟩,
    ⟨"ASC(".toList,    10, 1, some .asc⟩,
    ⟨"MID$(".toList,   10, 3, some .mid⟩,
    ⟨"LEFT$(".toList,  10, 2, some .left⟩,
    ⟨"RIGHT$(".toList, 10, 2, some .right⟩,
    ⟨"STRING$(".toList, 10, 2, some .string⟩,
    ⟨"UPPER$(".toList, 10, 1, some .upper⟩,
    ⟨"LOWER$(".toList, 10, 1, some .lower⟩ ]

/-! ### Token matching (the inner loops of EvaluateExpression) -/

/-- Case-insensitive match of a table token at `col` (the source compares
`token[j] != Ascii::ToUpper(m_line[m_column + j])`, bailing out at the end of
the line). -/
def matchTok (line : List Char) : Nat → List Char → Bool
  | _, [] => true
  | i, c :: cs =>
    if i < line.length ∧ c = asciiToUpper (line.getD i ' ') then
      matchTok line (i + 1) cs
    else false

/-- First matching table row, if any (first match wins). -/
def findTok (line : List Char) (col : Nat) : List Operator → Option Operator
  | [] => none
  | op :: rest => if matchTok line col op.token then some op else findTok line col rest

/-! ### Modelled collaborators used by GetValue and the driver loop -/

/-- Modelled from the spec: `Literals::ParseNumeric` (literals.cpp is not
among the sources). Consumes a decimal literal with optional fractional part,
or an `&`-prefixed hex literal; returns the value and the new cursor. -/
def isDigitC (c : Char) : Bool := '0' ≤ c ∧ c ≤ '9'

/-- Hex digit test for the `&` literal form. -/
def isHexC (c : Char) : Bool :=
  isDigitC c ∨ ('A' ≤ c ∧ c ≤ 'F') ∨ ('a' ≤ c ∧ c ≤ 'f')

/-- Value of a hex digit. -/
def hexVal (c : Char) : Nat :=
  if isDigitC c then c.toNat - 48
  else if 'A' ≤ c ∧ c ≤ 'F' then c.toNat - 55
  else c.toNat - 87

/-- Accumulate digits base `b`. -/
def digitsVal (b : Nat) (ds : List Char) : Nat :=
  ds.foldl (fun acc c => acc * b + hexVal c) 0

/-- Modelled from the spec: `Literals::ParseNumeric`; see `isDigitC`. -/
def parseNumeric (line : List Char) (col : Nat) : Option (ℚ × Nat) :=
  let s := line.drop col
  match s with
  | '&' :: rest =>
    let hs := rest.takeWhile isHexC
    if hs.isEmpty then none
    else some ((digitsVal 16 hs : ℚ), col + 1 + hs.length)
  | _ =>
    let ds := s.takeWhile isDigitC
    if ds.isEmpty then none
    else
      let rest := s.drop ds.length
      match rest with
      | '.' :: rest' =>
        let fs := rest'.takeWhile isDigitC
        if fs.isEmpty then some ((digitsVal 10 ds : ℚ), col + ds.length)
        else
          some (mkRat (digitsVal 10 ds * 10 ^ fs.length + digitsVal 10 fs) (10 ^ fs.length),
            col + ds.length + 1 + fs.length)
      | _ => some ((digitsVal 10 ds : ℚ), col + ds.length)

/-- Identifier-continuation characters. -/
def isSymChar (c : Char) : Bool :=
  ('A' ≤ c ∧ c ≤ 'Z') ∨ ('a' ≤ c ∧ c ≤ 'z') ∨ isDigitC c ∨ c = '_'

/-- Modelled from the spec: `LineParser::GetSymbolName` (lineparser.cpp is
not among the sources): consumes identifier characters, plus one optional
trailing `$` or `%` (so that `TIME$` is a single name). -/
def getSymbolName (line : List Char) (col : Nat) : List Char × Nat :=
  let body := (line.drop col).takeWhile isSymChar
  let col' := col + body.length
  match line.drop col' with
  | '$' :: _ => (body ++ ['$'], col' + 1)
  | '%' :: _ => (body ++ ['%'], col' + 1)
  | _ => (body, col')

/-- String-literal scanner of `GetValue` on the characters after the opening
quote: doubled `""` becomes one `"`; returns the text and the number of
characters consumed including the closing quote, or `none` if unterminated. -/
def scanStr : List Char → Option (List Char × Nat)
  | [] => none
  | '\"' :: '\"' :: rest =>
    match scanStr rest with
    | none => none
    | some (t, n) => some ('\"' :: t, n + 2)
  | '\"' :: _ => some ([], 1)
  | c :: rest =>
    match scanStr rest with
    | none => none
    | some (t, n) => some (c :: t, n + 1)

/-- Alphabetic or underscore: start of a symbol in `GetValue`. -/
def isSymStart (c : Char) : Bool :=
  ('A' ≤ c ∧ c ≤ 'Z') ∨ ('a' ≤ c ∧ c ≤ 'z') ∨ c = '_'

/-- The fixed format of bare `TIME$`. -/
def defaultTimeFormat : List Char := "%a,%d %b %Y.%H:%M:%S".toList

/-- `LineParser::GetValue` (expression.cpp:143). -/
def GetValue (ctx : Ctx) (st : PState) : PState × Except AsmErr Value :=
  match parseNumeric st.line st.column with
  | some (q, col') => ({ st with column := col' }, .ok (.num q))
  | none =>
    if st.column < st.line.length ∧ st.line.getD st.column ' ' = '*' then
      ({ st with column := st.column + 1 }, .ok (.num ((ctx.pc : Int) : ℚ)))
    else if st.column < st.line.length ∧ st.line.getD st.column ' ' = '\'' then
      if st.line.length - st.column < 3 ∨ st.line.getD (st.column + 2) ' ' ≠ '\'' then
        (st, .error .invalidCharacter)
      else
        ({ st with column := st.column + 3 },
          .ok (.num ((st.line.getD (st.column + 1) ' ').toNat : ℚ)))
    else if st.column < st.line.length ∧ st.line.getD st.column ' ' = '\"' then
      match scanStr (st.line.drop (st.column + 1)) with
      | none => ({ st with column := st.line.length }, .error .missingQuote)
      | some (text, n) => ({ st with column := st.column + 1 + n }, .ok (.str text))
    else if st.column < st.line.length ∧ isSymStart (st.line.getD st.column ' ') then
      let r := getSymbolName st.line st.column
      let st' := { st with column := r.2 }
      if r.1 = "TIME$".toList then
        match FormatAssemblyTime ctx defaultTimeFormat with
        | .error e => (st', .error e)
        | .ok t => (st', .ok (.str t))
      else
        match ctx.symbols r.1 with
        | some v => (st', .ok v)
        | none => (st', .error .symbolNotDefined)
    else (st, .error .invalidCharacter)

/-- Leading-whitespace count. -/
def wsCount : List Char → Nat
  | c :: rest => if c = ' ' ∨ c = '\t' then wsCount rest + 1 else 0
  | [] => 0

/-- Modelled from the spec: `AdvanceAndCheckEndOfSubStatement` (§6): skip
insignificant whitespace, then report whether a significant character
remains; at top level a `:` statement separator or `;` comment ends the
sub-statement. Returns the advanced state and the continue flag. -/
def advanceAndCheck (st : PState) (topLevel : Bool) : PState × Bool :=
  let col := st.column + wsCount (st.line.drop st.column)
  let st := { st with column := col }
  if col ≥ st.line.length then (st, false)
  else if topLevel ∧ (st.line.getD col ' ' = ':' ∨ st.line.getD col ' ' = ';') then (st, false)
  else (st, true)

/-- Modelled from the spec: `MAX_VALUES` (lineparser.h is not among the
sources; spec §4.E requires an implementation constant ≥ 32). -/
def MAX_VALUES : Nat := 32

/-- Modelled from the spec: `MAX_OPERATORS` (as `MAX_VALUES`). -/
def MAX_OPERATORS : Nat := 32

/-! ### The driver loop of EvaluateExpression (expression.cpp:248-561)

The loop is a fuel-indexed structural recursion (`none` = fuel exhausted;
any sufficiently large fuel yields the same result).  The pop-loops recurse
structurally over an explicit copy of the operator stack while keeping
`st.opStack` in sync (handlers never touch the operator stack). -/

/-- Apply one popped stacked operator handler, dispatching to the `Eval...`
functions. `recE` runs a nested `EvaluateExpression` for `EVAL(` (a fresh
parser over the given line, sharing the PRNG stream position). -/
def applyH (recE : List Char → Nat → Option (PState × Except AsmErr Value))
    (ctx : Ctx) (h : Handler) (st : PState) : Option (PState × Except AsmErr Unit) :=
  match h with
  | .eval =>
    match st.valueStack with
    | .str s :: rest =>
      match recE s st.randIdx with
      | none => none
      | some (ist, .ok v) =>
        some ({ st with valueStack := v :: rest, randIdx := ist.randIdx }, .ok ())
      | some (ist, .error e) => some ({ st with randIdx := ist.randIdx }, .error e)
    | _ :: _ => some (st, .error .typeMismatch)
    | [] => some (st, .error .missingValue)
  | .add => some (EvalAdd st)
  | .subtract => some (EvalSubtract st)
  | .multiply => some (EvalMultiply st)
  | .divide => some (EvalDivide st)
  | .power => some (EvalPower ctx st)
  | .div => some (EvalDiv st)
  | .mod => some (EvalMod st)
  | .shiftLeft => some (EvalShiftLeft st)
  | .shiftRight => some (EvalShiftRight st)
  | .and => some (EvalAnd st)
  | .or => some (EvalOr st)
  | .eor => some (EvalEor st)
  | .equal => some (EvalEqual st)
  | .notEqual => some (EvalNotEqual st)
  | .lessThanOrEqual => some (EvalLessThanOrEqual st)
  | .moreThanOrEqual => some (EvalMoreThanOrEqual st)
  | .lessThan => some (EvalLessThan st)
  | .moreThan => some (EvalMoreThan st)
  | .negate => some (EvalNegate st)
  | .posate => some (EvalPosate st)
  | .not => some (EvalNot st)
  | .lo => some (EvalLo st)
  | .hi => some (EvalHi st)
  | .sin => some (EvalSin ctx st)
  | .cos => some (EvalCos ctx st)
  | .tan => some (EvalTan ctx st)
  | .arcSin => some (EvalArcSin ctx st)
  | .arcCos => some (EvalArcCos ctx st)
  | .arcTan => some (EvalArcTan ctx st)
  | .sqrt => some (EvalSqrt ctx st)
  | .degToRad => some (EvalDegToRad ctx st)
  | .radToDeg => some (EvalRadToDeg ctx st)
  | .int => some (EvalInt st)
  | .abs => some (EvalAbs st)
  | .sgn => some (EvalSgn st)
  | .rnd => some (EvalRnd ctx st)
  | .log => some (EvalLog ctx st)
  | .ln => some (EvalLn ctx st)
  | .exp => some (EvalExp ctx st)
  | .time => some (EvalTime ctx st)
  | .str => some (EvalStr ctx st)
  | .strHex => some (EvalStrHex st)
  | .val => some (EvalVal ctx st)
  | .len => some (EvalLen st)
  | .chr => some (EvalChr st)
  | .asc => some (EvalAsc st)
  | .mid => some (EvalMid st)
  | .left => some (EvalLeft st)
  | .right => some (EvalRight st)
  | .string => some (EvalString st)
  | .upper => some (EvalUpper st)
  | .lower => some (EvalLower st)

/-- The pop-and-execute loops guarded by a precedence comparison
(expression.cpp:358-367 and 432-441): while the stack is non-empty and
`cond top` holds, pop the top operator and run its handler.  A popped
operator without a handler trips the source's `assert(opHandler != NULL)`. -/
def popWhileF (apply : Handler → PState → Option (PState × Except AsmErr Unit))
    (cond : Operator → Bool) :
    List Operator → PState → Option (PState × Except AsmErr Unit)
  | [], st => some (st, .ok ())
  | op :: rest, st =>
    if cond op then
      match op.handler with
      | none => some (st, .error .assertFailed)
      | some h =>
        match apply h { st with opStack := rest } with
        | none => none
        | some (st', .error e) => some (st', .error e)
        | some (st', .ok ()) => popWhileF apply cond rest st'
    else some (st, .ok ())

/-- The pop-until-open-bracket loop of the close-bracket/comma path
(expression.cpp:465-479): pop and execute handlers until an open-bracket
sentinel is popped; return it, or `none` inside `ok` when the stack ran out
without finding one. -/
def popToBracketF (apply : Handler → PState → Option (PState × Except AsmErr Unit)) :
    List Operator → PState → Option (PState × Except AsmErr (Option Operator))
  | [], st => some (st, .ok none)
  | op :: rest, st =>
    match op.handler with
    | none => some ({ st with opStack := rest }, .ok (some op))
    | some h =>
      match apply h { st with opStack := rest } with
      | none => none
      | some (st', .error e) => some (st', .error e)
      | some (st', .ok ()) => popToBracketF apply rest st'

/-- The stack purge after the main loop (expression.cpp:535-550): execute
every remaining handler; an open-bracket sentinel means mismatched
parentheses. -/
def drainF (apply : Handler → PState → Option (PState × Except AsmErr Unit)) :
    List Operator → PState → Option (PState × Except AsmErr Unit)
  | [], st => some (st, .ok ())
  | op :: rest, st =>
    match op.handler with
    | none => some ({ st with opStack := rest }, .error .mismatchedParentheses)
    | some h =>
      match apply h { st with opStack := rest } with
      | none => none
      | some (st', .error e) => some (st', .error e)
      | some (st', .ok ()) => drainF apply rest st'

/-- End of the expression (after the loop): purge the operator stack, then
require at least one value (`EmptyExpression` otherwise) and return
`m_valueStack[0]`, the bottom of the value stack.  The source's
`assert(m_valueStackPtr <= 1)` is not an exception and is not modelled as
one; that the count is exactly 1 on success is proved below instead. -/
def finishExpr (apply : Handler → PState → Option (PState × Except AsmErr Unit))
    (st : PState) : Option (PState × Except AsmErr Value) :=
  match drainF apply st.opStack st with
  | none => none
  | some (st', .error e) => some (st', .error e)
  | some (st', .ok ()) =>
    match st'.valueStack.getLast? with
    | none => some (st', .error .emptyExpression)
    | some v => some (st', .ok v)

/-- Does this token name a prefix function, i.e. is longer than one
character and ends in `(` (expression.cpp:303)? -/
def endsInParen (tok : List Char) : Bool :=
  tok.length > 1 ∧ tok.getLast? = some '('

/-- One iteration (plus the rest) of the driver loop of
`LineParser::EvaluateExpression`, with `fuel` bounding the number of
iterations and the nesting depth of `EVAL(`. -/
def evalLoop (ctx : Ctx) : Nat → Bool → PState → Option (PState × Except AsmErr Value)
  | 0, _, _ => none
  | fuel + 1, allow, st =>
    let apply := applyH (fun l ri =>
      evalLoop ctx fuel false
        { line := l, column := 0, valueStack := [], opStack := [], bracketCount := 0,
          pendingCommaCount := 0, expected := .valueOrUnary, randIdx := ri }) ctx
    let r := advanceAndCheck st (st.bracketCount == 0)
    let st := r.1
    if r.2 = false then finishExpr apply st
    else
      match st.expected with
      | .valueOrUnary =>
        match findTok st.line st.column unaryOperatorTable with
        | none =>
          if st.valueStack.length = MAX_VALUES then some (st, .error .expressionTooComplex)
          else
            match GetValue ctx st with
            | (st', .ok v) =>
              evalLoop ctx fuel allow
                { st' with valueStack := v :: st'.valueStack, expected := .binary }
            | (st', .error .symbolNotDefined) =>
              if ctx.firstPass then
                some ({ st' with column := ctx.skipExpr st'.bracketCount allow st'.column },
                  .error .symbolNotDefined)
              else some (st', .error .symbolNotDefined)
            | (st', .error e) => some (st', .error e)
        | some op =>
          let st := { st with column := st.column + op.token.length }
          let st :=
            if endsInParen op.token then
              { st with pendingCommaCount := op.parameterCount - 1, column := st.column - 1 }
            else st
          match op.handler with
          | some _ =>
            match popWhileF apply (fun top => op.precedence < top.precedence) st.opStack st with
            | none => none
            | some (st', .error e) => some (st', .error e)
            | some (st', .ok ()) =>
              if st'.opStack.length = MAX_OPERATORS then
                some (st', .error .expressionTooComplex)
              else evalLoop ctx fuel allow { st' with opStack := op :: st'.opStack }
          | none =>
            let op' := { op with parameterCount := st.pendingCommaCount }
            let st := { st with pendingCommaCount := 0, bracketCount := st.bracketCount + 1 }
            if st.opStack.length = MAX_OPERATORS then
              some (st, .error .expressionTooComplex)
            else evalLoop ctx fuel allow { st with opStack := op' :: st.opStack }
      | .binary =>
        match findTok st.line st.column binaryOperatorTable with
        | none => some (st, .error .invalidCharacter)
        | some op =>
          let st := { st with column := st.column + op.token.length }
          match op.handler with
          | some _ =>
            match popWhileF apply (fun top => op.precedence ≤ top.precedence) st.opStack st with
            | none => none
            | some (st', .error e) => some (st', .error e)
            | some (st', .ok ()) =>
              if st'.opStack.length = MAX_OPERATORS then
                some (st', .error .expressionTooComplex)
              else
                evalLoop ctx fuel allow
                  { st' with opStack := op :: st'.opStack, expected := .valueOrUnary }
          | none =>
            let separator := op.token = [',']
            let st :=
              if separator then st else { st with bracketCount := st.bracketCount - 1 }
            match popToBracketF apply st.opStack st with
            | none => none
            | some (st', .error e) => some (st', .error e)
            | some (st', .ok none) =>
              if allow then finishExpr apply { st' with column := st'.column - 1 }
              else some (st', .error .mismatchedParentheses)
            | some (st', .ok (some sent)) =>
              if separator then
                if sent.parameterCount = 0 then some (st', .error .parameterCount)
                else
                  evalLoop ctx fuel allow
                    { st' with
                      opStack := { sent with parameterCount := sent.parameterCount - 1 }
                        :: st'.opStack,
                      expected := .valueOrUnary }
              else
                if sent.parameterCount ≠ 0 then some (st', .error .parameterCount)
                else evalLoop ctx fuel allow st'

/-- The initial parser state for a line. -/
def initState (line : List Char) (col randIdx : Nat) : PState :=
  { line := line, column := col, valueStack := [], opStack := [], bracketCount := 0,
    pendingCommaCount := 0, expected := .valueOrUnary, randIdx := randIdx }

/-- `LineParser::EvaluateExpression`: reset the stacks and run the loop. -/
def EvaluateExpression (ctx : Ctx) (fuel : Nat) (allow : Bool) (line : List Char) :
    Option (PState × Except AsmErr Value) :=
  evalLoop ctx fuel allow (initState line 0 0)

/-- Result component only (discarding the final state). -/
def evalResult (ctx : Ctx) (fuel : Nat) (allow : Bool) (line : List Char) :
    Option (Except AsmErr Value) :=
  (EvaluateExpression ctx fuel allow line).map (·.2)

/-! ### A concrete collaborator context for running the engine

Used by the closed (witness / counterexample) theorems.  `qpowTest` models
libm `pow` exactly on the non-negative integer exponents those theorems use. -/

/-- Modelled from the spec: libm `pow`, exact on integer exponents. -/
def qpowTest (a b : ℚ) : ℚ :=
  if b.den = 1 ∧ 0 ≤ b.num then mkRat (a.num ^ b.num.toNat) (a.den ^ b.num.toNat) else 0

/-- A concrete context: empty symbol table, PC 0, second pass, a skipper
that jumps 1000 columns ahead (so its use is observable), trivial PRNG and
formatting collaborators. -/
def testCtx : Ctx where
  symbols := fun _ => none
  pc := 0
  firstPass := false
  skipExpr := fun _ _ c => c + 1000
  randSeq := fun _ => 0
  randMax := 32767
  fmtTime := fun f => f
  printNum := fun _ => ['0']
  strtodF := fun _ => 0
  constPi := mkRat 314159 100000
  sinF := fun _ => 0
  cosF := fun _ => 0
  tanF := fun _ => 0
  asinF := fun _ => (0, .noErr)
  acosF := fun _ => (0, .noErr)
  atanF := fun _ => (0, .noErr)
  log10F := fun _ => (0, .noErr)
  logF := fun _ => (0, .noErr)
  expF := fun _ => (0, .noErr)
  sqrtF := fun _ => (0, .noErr)
  powF := fun a b => (qpowTest a b, .noErr)

/-! ### Truncation characterised through floor and ceiling -/

/-- On non-negative rationals, C truncation is the floor. -/
theorem ratTrunc_eq_floor (q : ℚ) (h : 0 ≤ q) : ratTrunc q = ⌊q⌋ := by
  have hnum : 0 ≤ q.num := Rat.num_nonneg.2 h
  rw [ratTrunc, Int.tdiv_eq_ediv hnum (Int.ofNat_nonneg q.den), Rat.floor_def]

/-- On non-positive rationals, C truncation is the ceiling. -/
theorem ratTrunc_eq_ceil (q : ℚ) (h : q ≤ 0) : ratTrunc q = ⌈q⌉ := by
  have hnum : q.num ≤ 0 := Rat.num_nonpos.2 h
  have h1 : ratTrunc q = -((-q.num).tdiv q.den) := by
    rw [ratTrunc, ← Int.neg_tdiv, neg_neg]
  have h2 : ⌈q⌉ = -⌊-q⌋ := by
    rw [Int.floor_neg, neg_neg]
  rw [h1, Int.tdiv_eq_ediv (by omega) (Int.ofNat_nonneg q.den), h2, Rat.floor_def,
    Rat.neg_num, Rat.neg_den]

/-- Truncation bounds: within `[lo, hi]` for integer `lo ≤ 0 ≤ hi`. -/
theorem ratTrunc_bounds (q : ℚ) (lo hi : Int) (hlo : lo ≤ 0) (hhi : 0 ≤ hi)
    (h1 : (lo : ℚ) ≤ q) (h2 : q ≤ (hi : ℚ)) : lo ≤ ratTrunc q ∧ ratTrunc q ≤ hi := by
  rcases le_or_lt 0 q with hq | hq
  · rw [ratTrunc_eq_floor q hq]
    refine ⟨le_trans hlo (Int.floor_nonneg.2 hq), ?_⟩
    have := Int.floor_le_floor h2
    rwa [Int.floor_intCast] at this
  · rw [ratTrunc_eq_ceil q hq.le]
    have hc0 : ⌈q⌉ ≤ 0 := by
      have := Int.ceil_le_ceil hq.le
      simpa using this
    refine ⟨?_, le_trans hc0 hhi⟩
    have := Int.ceil_le_ceil h1
    rwa [Int.ceil_intCast] at this

/-- An unsigned 32-bit pattern reinterprets to a signed 32-bit value. -/
theorem fromBits32_range (u : Nat) (h : u < 4294967296) :
    -2147483648 ≤ fromBits32 u ∧ fromBits32 u < 2147483648 := by
  unfold fromBits32
  split <;> omega

/-- A successful integer coercion yields a value in the `int` range. -/
theorem convert_ok_range (x : ℚ) (i : Int) (h : ConvertDoubleToInt x = .ok i) :
    -2147483648 ≤ i ∧ i < 2147483648 := by
  unfold ConvertDoubleToInt at h
  split at h
  · simp at h
  next hor =>
    push_neg at hor
    obtain ⟨hx1, hx2⟩ := hor
    split at h
    next hle =>
      simp only [Except.ok.injEq] at h
      subst h
      have := ratTrunc_bounds x (-2147483648) 2147483647 (by norm_num) (by norm_num)
        (by push_cast; linarith) (by push_cast; linarith)
      omega
    next hgt =>
      simp only [Except.ok.injEq] at h
      subst h
      push_neg at hgt
      have := ratTrunc_bounds x 0 4294967295 le_rfl (by norm_num)
        (by push_cast; linarith) (by push_cast; linarith)
      have hr := fromBits32_range (ratTrunc x).toNat (by omega)
      omega

/-- C3: integer coercion (`ConvertDoubleToInt`) accepts a double `x` iff it
lies in `[INT_MIN_32, UINT_MAX_32]` (raising `OutOfIntegerRange` otherwise);
values up to `INT_MAX_32` cast directly (truncation toward zero), larger ones
cast via unsigned 32-bit and are reinterpreted as signed, and consequently
`&FFFFFFFF AND &FFFFFFFF` evaluates to `Number(-1)`. -/
theorem C3_integer_coercion (x : ℚ) :
    (¬(-2147483648 ≤ x ∧ x ≤ 4294967295) →
      ConvertDoubleToInt x = .error .outOfIntegerRange) ∧
    ((-2147483648 ≤ x ∧ x ≤ 2147483647) → ConvertDoubleToInt x = .ok (ratTrunc x)) ∧
    ((2147483647 < x ∧ x ≤ 4294967295) →
      ConvertDoubleToInt x = .ok (fromBits32 (ratTrunc x).toNat)) ∧
    evalResult testCtx 50 false ("&FFFFFFFF AND &FFFFFFFF".toList) = some (.ok (.num (-1))) := by
  refine ⟨?_, ?_, ?_, by rfl⟩
  · intro h
    unfold ConvertDoubleToInt
    rw [if_pos]
    by_contra hcon
    push_neg at hcon
    exact h ⟨by linarith [hcon.1], by linarith [hcon.2]⟩
  · intro ⟨h1, h2⟩
    unfold ConvertDoubleToInt
    rw [if_neg (by push_neg; constructor <;> linarith), if_pos h2]
  · intro ⟨h1, h2⟩
    unfold ConvertDoubleToInt
    rw [if_neg (by push_neg; constructor <;> linarith), if_neg (by linarith)]

/-- C3 witness: `&FFFFFFFF` coerces to `-1`. -/
theorem C3_witness :
    ConvertDoubleToInt 4294967295 = .ok (fromBits32 (ratTrunc 4294967295).toNat) ∧
    ConvertDoubleToInt 4294967295 = .ok (-1) :=
  ⟨(C3_integer_coercion 4294967295).2.2.1 (by norm_num), by rfl⟩

/-- C9: unary `+` (EvalPosate) is the identity on any value, including
strings — it only checks that the stack is non-empty — while unary `-`
(EvalNegate) on a string raises `TypeMismatch`. -/
theorem C9_posate_identity (st : PState) (v : Value) (rest : List Value)
    (h : st.valueStack = v :: rest) :
    EvalPosate st = (st, .ok ()) ∧
    (∀ s, v = .str s → EvalNegate st = (st, .error .typeMismatch)) := by
  constructor
  · unfold EvalPosate
    rw [h]
    simp
  · rintro s rfl
    unfold EvalNegate
    rw [h]

/-- A bare state holding just a given value stack (for the handler-level
witnesses). -/
def stackState (vs : List Value) : PState :=
  { initState [] 0 0 with valueStack := vs }

/-- C9 witness: posate leaves a string value untouched, negate rejects it. -/
theorem C9_witness :
    EvalPosate (stackState [.str ['a']]) = (stackState [.str ['a']], .ok ()) ∧
    EvalNegate (stackState [.str ['a']]) = (stackState [.str ['a']], .error .typeMismatch) := by
  have h := C9_posate_identity (stackState [.str ['a']]) (.str ['a']) [] rfl
  exact ⟨h.1, h.2 ['a'] rfl⟩

/-- Masking with `0xFF` keeps the low byte of the bit pattern. -/
theorem intAnd_mask8 (i : Int) : intAnd i 255 = ((toBits32 i % 256 : Nat) : Int) := by
  unfold intAnd
  have h255 : toBits32 255 = 255 := by decide
  rw [h255]
  have hland : Nat.land (toBits32 i) 255 = toBits32 i % 256 := by
    have := Nat.and_pow_two_sub_one_eq_mod (toBits32 i) 8
    norm_num at this
    exact this
  rw [hland]
  unfold fromBits32
  rw [if_pos (by omega)]

/-- Masking with `0xFFFF` keeps the low 16 bits of the bit pattern. -/
theorem intAnd_mask16 (i : Int) : intAnd i 65535 = ((toBits32 i % 65536 : Nat) : Int) := by
  unfold intAnd
  have h16 : toBits32 65535 = 65535 := by decide
  rw [h16]
  have hland : Nat.land (toBits32 i) 65535 = toBits32 i % 65536 := by
    have := Nat.and_pow_two_sub_one_eq_mod (toBits32 i) 16
    norm_num at this
    exact this
  rw [hland]
  unfold fromBits32
  rw [if_pos (by omega)]

/-- C6: for an integer-coercible `x` (with int value `i`), `HI` computes
`(i & 0xFFFF) >> 8` and `LO` computes `i & 0xFF`, `x AND &FFFF` computes
`i & 0xFFFF`, and `HI(x)*256 + LO(x) = x AND &FFFF`. -/
theorem C6_hi_lo (st : PState) (x : ℚ) (i : Int) (rest : List Value)
    (hst : st.valueStack = .num x :: rest)
    (hc : ConvertDoubleToInt x = .ok i) :
    EvalHi st =
      ({ st with valueStack := .num (((intAnd i 65535).toNat >>> 8 : Nat) : ℚ) :: rest },
        .ok ()) ∧
    EvalLo st = ({ st with valueStack := .num ((intAnd i 255 : Int) : ℚ) :: rest }, .ok ()) ∧
    EvalAnd { st with valueStack := .num 65535 :: .num x :: rest } =
      ({ st with valueStack := .num ((intAnd i 65535 : Int) : ℚ) :: rest }, .ok ()) ∧
    (((intAnd i 65535).toNat >>> 8 : Nat) : Int) * 256 + intAnd i 255 = intAnd i 65535 := by
  have hc16 : ConvertDoubleToInt 65535 = .ok 65535 := by rfl
  refine ⟨?_, ?_, ?_, ?_⟩
  · unfold EvalHi
    rw [hst]
    simp only [hc]
  · unfold EvalLo
    rw [hst]
    simp only [hc]
  · unfold EvalAnd
    simp only [hc, hc16]
  · rw [intAnd_mask8, intAnd_mask16, Int.toNat_ofNat, Nat.shiftRight_eq_div_pow]
    have h2 : toBits32 i % 256 = (toBits32 i % 65536) % 256 :=
      (Nat.mod_mod_of_dvd _ (by norm_num)).symm
    rw [h2]
    have h3 := Nat.div_add_mod (toBits32 i % 65536) 256
    push_cast
    push_cast at h3
    linarith

/-- C6 witness: instantiated at `x = 4660` (`&1234`). -/
theorem C6_witness :
    (((intAnd 4660 65535).toNat >>> 8 : Nat) : Int) * 256 + intAnd 4660 255 =
      intAnd 4660 65535 ∧
    EvalHi (stackState [.num 4660]) =
      ({ stackState [.num 4660] with
          valueStack := [.num (((intAnd 4660 65535).toNat >>> 8 : Nat) : ℚ)] }, .ok ()) := by
  have h := C6_hi_lo (stackState [.num 4660]) 4660 4660 [] rfl (by rfl)
  exact ⟨h.2.2.2, h.1⟩

/-- Repeating a string multiplies its length. -/
theorem strRepeat_length (s : List Char) : ∀ n, (strRepeat s n).length = n * s.length := by
  intro n
  induction n with
  | zero => simp [strRepeat]
  | succ m ih =>
    simp only [strRepeat, List.length_append, ih]
    ring

/-- C8: `STRING$(n, s)` raises `IllegalOperation` iff `n < 0`, `n ≥ 65536`,
`len(s) ≥ 65536` or `n·len(s) ≥ 65536`; otherwise it returns `s` repeated
`n` times, whose length is `n * LEN(s)`. -/
theorem C8_string_bounds (st : PState) (nq : ℚ) (s : List Char) (n : Int)
    (rest : List Value)
    (hst : st.valueStack = .str s :: .num nq :: rest)
    (hc : ConvertDoubleToInt nq = .ok n) :
    ((EvalString st).2 = .error .illegalOperation ↔
      (n < 0 ∨ 65536 ≤ n ∨ 65536 ≤ (s.length : Int) ∨ 65536 ≤ n * s.length)) ∧
    (¬(n < 0 ∨ 65536 ≤ n ∨ 65536 ≤ (s.length : Int) ∨ 65536 ≤ n * s.length) →
      EvalString st = ({ st with valueStack := .str (strRepeat s n.toNat) :: rest }, .ok ()) ∧
      (strRepeat s n.toNat).length = n.toNat * s.length) := by
  have hrange := convert_ok_range nq n hc
  have hcond : (n < 0 ∨ n ≥ 65536 ∨ s.length ≥ 65536 ∨
      (toBits32 n * s.length) % 4294967296 ≥ 65536) ↔
      (n < 0 ∨ 65536 ≤ n ∨ 65536 ≤ (s.length : Int) ∨ 65536 ≤ n * s.length) := by
    constructor
    · rintro (h | h | h | h)
      · exact Or.inl h
      · exact Or.inr (Or.inl h)
      · exact Or.inr (Or.inr (Or.inl (by exact_mod_cast h)))
      · rcases lt_or_ge n 0 with hn | hn
        · exact Or.inl hn
        · rcases le_or_lt 65536 n with hn2 | hn2
          · exact Or.inr (Or.inl hn2)
          · rcases le_or_lt 65536 s.length with hs2 | hs2
            · exact Or.inr (Or.inr (Or.inl (by exact_mod_cast hs2)))
            · have hb : toBits32 n = n.toNat := by
                unfold toBits32
                omega
              rw [hb] at h
              have hlt : n.toNat * s.length < 4294967296 := by
                calc n.toNat * s.length ≤ 65535 * 65535 :=
                      Nat.mul_le_mul (by omega) (by omega)
                  _ < 4294967296 := by norm_num
              rw [Nat.mod_eq_of_lt hlt] at h
              refine Or.inr (Or.inr (Or.inr ?_))
              have : (65536 : Int) ≤ (n.toNat * s.length : Nat) := by exact_mod_cast h
              rw [Nat.cast_mul] at this
              rwa [Int.toNat_of_nonneg hn] at this
    · rintro (h | h | h | h)
      · exact Or.inl h
      · exact Or.inr (Or.inl h)
      · exact Or.inr (Or.inr (Or.inl (by exact_mod_cast h)))
      · rcases lt_or_ge n 0 with hn | hn
        · exact Or.inl hn
        · rcases le_or_lt 65536 n with hn2 | hn2
          · exact Or.inr (Or.inl hn2)
          · rcases le_or_lt 65536 s.length with hs2 | hs2
            · exact Or.inr (Or.inr (Or.inl hs2))
            · refine Or.inr (Or.inr (Or.inr ?_))
              have hb : toBits32 n = n.toNat := by
                unfold toBits32
                omega
              rw [hb]
              have hlt : n.toNat * s.length < 4294967296 := by
                calc n.toNat * s.length ≤ 65535 * 65535 :=
                      Nat.mul_le_mul (by omega) (by omega)
                  _ < 4294967296 := by norm_num
              rw [Nat.mod_eq_of_lt hlt]
              have h' : (65536 : Int) ≤ (n.toNat : Int) * s.length := by
                rwa [Int.toNat_of_nonneg hn]
              exact_mod_cast h'
  constructor
  · unfold EvalString
    rw [hst]
    simp only [hc]
    split
    next hbad => simpa using (hcond.1 (by tauto))
    next hgood =>
      simp only []
      constructor
      · intro hcon
        simp at hcon
      · intro hmath
        exact absurd (hcond.2 hmath) (by push_neg at hgood ⊢; omega)
  · intro hmath
    unfold EvalString
    rw [hst]
    simp only [hc]
    rw [if_neg]
    · exact ⟨rfl, strRepeat_length s n.toNat⟩
    · intro hbad
      exact hmath (hcond.1 hbad)

/-- C8 witness: `STRING$(3, "ab")` has length `3 * 2`. -/
theorem C8_witness :
    EvalString (stackState [.str ['a', 'b'], .num 3]) =
      ({ stackState [.str ['a', 'b'], .num 3] with
          valueStack := [.str (strRepeat ['a', 'b'] (3 : Int).toNat)] }, .ok ()) ∧
    (strRepeat ['a', 'b'] (3 : Int).toNat).length = (3 : Int).toNat * ['a', 'b'].length := by
  have h := (C8_string_bounds (stackState [.str ['a', 'b'], .num 3]) 3 ['a', 'b'] 3 []
    rfl (by rfl)).2 (by norm_num)
  exact h

/-- Replace the value stack of a state. -/
def withStack (st : PState) (vs : List Value) : PState :=
  { st with valueStack := vs }

/-- C4: every comparison operator on two same-tagged operands returns
exactly `Number(-1)` (comparison true, per `Compare`) or `Number(0)`
(comparison false), raises `TypeMismatch` on differently-tagged operands,
and consequently `(a=b) OR (a<>b)` is always `-1`.  The first conjunct
grounds `Compare`'s sign in the numeric order. -/
theorem C4_comparisons (st : PState) (v1 v2 : Value) (rest : List Value)
    (hst : st.valueStack = v2 :: v1 :: rest) :
    (∀ a b : ℚ, v1 = .num a → v2 = .num b →
      (Compare v1 v2 = 0 ↔ a = b) ∧ (Compare v1 v2 < 0 ↔ a < b) ∧
      (0 < Compare v1 v2 ↔ b < a)) ∧
    (sameType v1 v2 = false →
      EvalEqual st = (st, .error .typeMismatch) ∧
      EvalNotEqual st = (st, .error .typeMismatch) ∧
      EvalLessThanOrEqual st = (st, .error .typeMismatch) ∧
      EvalMoreThanOrEqual st = (st, .error .typeMismatch) ∧
      EvalLessThan st = (st, .error .typeMismatch) ∧
      EvalMoreThan st = (st, .error .typeMismatch)) ∧
    (sameType v1 v2 = true →
      EvalEqual st =
        ({ st with valueStack := .num (if Compare v1 v2 = 0 then -1 else 0) :: rest },
          .ok ()) ∧
      EvalNotEqual st =
        ({ st with valueStack := .num (if Compare v1 v2 ≠ 0 then -1 else 0) :: rest },
          .ok ()) ∧
      EvalLessThanOrEqual st =
        ({ st with valueStack := .num (if Compare v1 v2 ≤ 0 then -1 else 0) :: rest },
          .ok ()) ∧
      EvalMoreThanOrEqual st =
        ({ st with valueStack := .num (if Compare v1 v2 ≥ 0 then -1 else 0) :: rest },
          .ok ()) ∧
      EvalLessThan st =
        ({ st with valueStack := .num (if Compare v1 v2 < 0 then -1 else 0) :: rest },
          .ok ()) ∧
      EvalMoreThan st =
        ({ st with valueStack := .num (if Compare v1 v2 > 0 then -1 else 0) :: rest },
          .ok ()) ∧
      EvalOr (withStack st
          (.num (if Compare v1 v2 ≠ 0 then -1 else 0) ::
            .num (if Compare v1 v2 = 0 then -1 else 0) :: rest)) =
        (withStack st (.num (-1) :: rest), .ok ())) := by
  refine ⟨?_, ?_, ?_⟩
  · rintro a b rfl rfl
    simp only [Compare]
    split_ifs with h1 h2
    · exact ⟨iff_of_false (by norm_num) (ne_of_lt h1), iff_of_true (by norm_num) h1,
        iff_of_false (by norm_num) (by linarith)⟩
    · exact ⟨iff_of_true rfl h2, iff_of_false (by norm_num) (by simp [h2]),
        iff_of_false (by norm_num) (by simp [h2])⟩
    · have hb : b < a := lt_of_le_of_ne (not_lt.1 h1) (fun h => h2 h.symm)
      exact ⟨iff_of_false (by norm_num) (ne_of_gt hb), iff_of_false (by norm_num) (by linarith),
        iff_of_true (by norm_num) hb⟩
  · intro hsame
    refine ⟨?_, ?_, ?_, ?_, ?_, ?_⟩
    · unfold EvalEqual
      rw [hst]
      simp [hsame]
    · unfold EvalNotEqual
      rw [hst]
      simp [hsame]
    · unfold EvalLessThanOrEqual
      rw [hst]
      simp [hsame]
    · unfold EvalMoreThanOrEqual
      rw [hst]
      simp [hsame]
    · unfold EvalLessThan
      rw [hst]
      simp [hsame]
    · unfold EvalMoreThan
      rw [hst]
      simp [hsame]
  · intro hsame
    have hm1 : ConvertDoubleToInt (-1) = .ok (-1) := by rfl
    have h00 : ConvertDoubleToInt 0 = .ok 0 := by rfl
    have hor1 : intOr (-1) 0 = -1 := by rfl
    have hor2 : intOr 0 (-1) = -1 := by rfl
    refine ⟨?_, ?_, ?_, ?_, ?_, ?_, ?_⟩
    · unfold EvalEqual
      rw [hst]
      simp [hsame]
    · unfold EvalNotEqual
      rw [hst]
      simp [hsame]
    · unfold EvalLessThanOrEqual
      rw [hst]
      simp [hsame]
    · unfold EvalMoreThanOrEqual
      rw [hst]
      simp [hsame]
    · unfold EvalLessThan
      rw [hst]
      simp [hsame]
    · unfold EvalMoreThan
      rw [hst]
      simp [hsame]
    · rcases eq_or_ne (Compare v1 v2) 0 with hcp | hcp
      · simp [EvalOr, withStack, hcp, hm1, h00, hor1]
      · simp [EvalOr, withStack, hcp, hm1, h00, hor2]

/-- C4 witness: `(5=5) OR (5<>5)` evaluates to `-1`. -/
theorem C4_witness :
    EvalOr (withStack (stackState [.num 5, .num 5])
        (.num (if Compare (.num 5) (.num 5) ≠ 0 then -1 else 0) ::
          .num (if Compare (.num 5) (.num 5) = 0 then -1 else 0) :: [])) =
      (withStack (stackState [.num 5, .num 5]) (.num (-1) :: []), .ok ()) :=
  ((C4_comparisons (stackState [.num 5, .num 5]) (.num 5) (.num 5) [] rfl).2.2
    rfl).2.2.2.2.2.2

/-- C1 counterexample: on the input `2 ^ 3 ^ 2` the engine returns
`Number(64)`, not `Number(512)`. -/
theorem C1_counterexample :
    evalResult testCtx 50 false ("2 ^ 3 ^ 2".toList) = some (.ok (.num 64)) ∧
    Value.num 64 ≠ Value.num 512 := by
  refine ⟨by rfl, by decide⟩

/-- C1 (amended): the infix `^` operator is left-associative — the binary
pop condition compares with `≤`, so a stacked `^` of equal precedence is
executed first — hence `2 ^ 3 ^ 2` = `(2 ^ 3) ^ 2` = 64, while the
explicitly right-associated `2 ^ (3 ^ 2)` = 512. -/
theorem C1_power_left_assoc :
    evalResult testCtx 50 false ("2 ^ 3 ^ 2".toList) = some (.ok (.num 64)) ∧
    evalResult testCtx 50 false ("(2 ^ 3) ^ 2".toList) = some (.ok (.num 64)) ∧
    evalResult testCtx 50 false ("2 ^ (3 ^ 2)".toList) = some (.ok (.num 512)) := by
  refine ⟨by rfl, by rfl, by rfl⟩

/-- C5: when `GetValue` fails inside the driver loop, `SymbolNotDefined`
during the first pass first moves the cursor with
`SkipExpression(bracketCount, allowOneMismatchedCloseBracket)` and is then
re-raised; on the second pass it propagates without skipping; any other
error kind propagates unchanged (nothing else is caught). -/
theorem C5_forward_reference (ctx : Ctx) (fuel : Nat) (allow : Bool)
    (st st0 st1 : PState) (e : AsmErr)
    (hadv : advanceAndCheck st (st.bracketCount == 0) = (st0, true))
    (hexp : st0.expected = .valueOrUnary)
    (htok : findTok st0.line st0.column unaryOperatorTable = none)
    (hmax : st0.valueStack.length ≠ MAX_VALUES)
    (hgv : GetValue ctx st0 = (st1, .error e)) :
    evalLoop ctx (fuel + 1) allow st =
      if e = .symbolNotDefined ∧ ctx.firstPass = true then
        some ({ st1 with column := ctx.skipExpr st1.bracketCount allow st1.column },
          .error .symbolNotDefined)
      else some (st1, .error e) := by
  cases e <;>
    · simp only [evalLoop, hadv, hexp, htok, hgv, if_neg hmax]
      by_cases hfp : ctx.firstPass = true <;> simp [hfp]

/-- The first-pass variant of the test context. -/
def ctxFP : Ctx := { testCtx with firstPass := true }

/-- C5 witness: `FOO+1` with undefined `FOO` on the first pass: the skipper
(which adds 1000 to the cursor, here at column 3 after reading `FOO`) runs
and `SymbolNotDefined` is re-raised. -/
theorem C5_witness :
    evalLoop ctxFP 50 false (initState ("FOO+1".toList) 0 0) =
      some ({ initState ("FOO+1".toList) 0 0 with column := 1003 },
        .error .symbolNotDefined) := by
  have h := C5_forward_reference ctxFP 49 false (initState ("FOO+1".toList) 0 0)
    (initState ("FOO+1".toList) 0 0)
    ({ initState ("FOO+1".toList) 0 0 with column := 3 })
    .symbolNotDefined rfl rfl rfl (by decide) rfl
  exact h.trans (by rfl)

/-- The bit pattern is always below `2^32`. -/
theorem toBits32_lt (x : Int) : toBits32 x < 4294967296 := by
  unfold toBits32
  omega

/-- Bit pattern of a negative in-range value. -/
theorem toBits32_neg_eq (a : Int) (h1 : -2147483648 ≤ a) (h2 : a < 0) :
    (toBits32 a : Int) = a + 4294967296 := by
  unfold toBits32
  omega

/-- Bit pattern of a non-negative in-range value. -/
theorem toBits32_nonneg_eq (a : Int) (h1 : 0 ≤ a) (h2 : a < 4294967296) :
    (toBits32 a : Int) = a := by
  unfold toBits32
  omega

/-- `LogicalShiftLeft` is multiplication by `2^shift` modulo `2^32` (on the
bit pattern, reinterpreted). -/
theorem LogicalShiftLeft_as_mul (a : Int) (n : Nat) :
    LogicalShiftLeft a n = fromBits32 ((toBits32 a * 2 ^ n) % 4294967296) := by
  unfold LogicalShiftLeft
  rw [Nat.shiftLeft_eq]

/-- Sign extension is division rounding toward negative infinity:
`ArithmeticShiftRight` on an in-range `int` equals `Int.fdiv` by `2^shift`
(for the shift amounts `1..31` with which the source calls it). -/
theorem ArithmeticShiftRight_eq_fdiv (a : Int) (n : Nat)
    (ha1 : -2147483648 ≤ a) (ha2 : a < 2147483648) (hn1 : 1 ≤ n) (hn2 : n ≤ 31) :
    ArithmeticShiftRight a n = a.fdiv (2 ^ n) := by
  have hpow : (0 : Int) < 2 ^ n := by positivity
  rw [Int.fdiv_eq_ediv _ (le_of_lt hpow)]
  have hdpow : ((2 : Int)) ^ n = ((2 ^ n : Nat) : Int) := by push_cast; ring
  have hkn : (2 : Nat) ^ n ≤ 2147483648 := by
    calc (2 : Nat) ^ n ≤ 2 ^ 31 := Nat.pow_le_pow_right (by norm_num) hn2
      _ = 2147483648 := by norm_num
  have hkn1 : (2 : Nat) ≤ 2 ^ n := by
    calc (2 : Nat) = 2 ^ 1 := by norm_num
      _ ≤ 2 ^ n := Nat.pow_le_pow_right (by norm_num) hn1
  unfold ArithmeticShiftRight
  rcases lt_or_ge a 0 with hneg | hpos
  · simp only [if_pos hneg]
    have hu : (toBits32 a : Int) = a + 4294967296 := toBits32_neg_eq a ha1 hneg
    set u := toBits32 a with hudef
    have hub1 : 2147483648 ≤ u := by omega
    have hub2 : u < 4294967296 := toBits32_lt a
    set k := 32 - n with hkdef
    have hk1 : 1 ≤ k := by omega
    have hk2 : k ≤ 31 := by omega
    have hkadd : k + n = 32 := by omega
    have hsplit : (4294967296 : Nat) = 2 ^ k * 2 ^ n := by
      have h1 : (2 : Nat) ^ 32 = 2 ^ k * 2 ^ n := by rw [← pow_add, hkadd]
      norm_num at h1
      exact h1
    have h2k : (2 : Nat) ^ k ≤ 2147483648 := by
      calc (2 : Nat) ^ k ≤ 2 ^ 31 := Nat.pow_le_pow_right (by norm_num) hk2
        _ = 2147483648 := by norm_num
    have h2k1 : (2 : Nat) ≤ 2 ^ k := by
      calc (2 : Nat) = 2 ^ 1 := by norm_num
        _ ≤ 2 ^ k := Nat.pow_le_pow_right (by norm_num) hk1
    have hmask : (4294967295 <<< k) % 4294967296 = 4294967296 - 2 ^ k := by
      rw [Nat.shiftLeft_eq]
      have hexpand : 4294967295 * 2 ^ k =
          (4294967296 - 2 ^ k) + 4294967296 * (2 ^ k - 1) := by omega
      rw [hexpand, Nat.add_mul_mod_self_left, Nat.mod_eq_of_lt (by omega)]
    have hx : u >>> n = u / 2 ^ n := Nat.shiftRight_eq_div_pow u n
    have hxlt : u / 2 ^ n < 2 ^ k := by
      rw [Nat.div_lt_iff_lt_mul (by positivity)]
      calc u < 4294967296 := hub2
        _ = 2 ^ k * 2 ^ n := hsplit
    have hmf : 2 ^ k * (2 ^ n - 1) + 2 ^ k = 2 ^ k * 2 ^ n := by
      have h1 : (1 : Nat) ≤ 2 ^ n := by omega
      calc 2 ^ k * (2 ^ n - 1) + 2 ^ k = 2 ^ k * (2 ^ n - 1 + 1) := by ring
        _ = 2 ^ k * 2 ^ n := by rw [Nat.sub_add_cancel h1]
    have hmaskfact : 4294967296 - 2 ^ k = 2 ^ k * (2 ^ n - 1) := by omega
    have hlor : Nat.lor (u / 2 ^ n) (4294967296 - 2 ^ k) =
        u / 2 ^ n + (4294967296 - 2 ^ k) := by
      rw [hmaskfact]
      have hior := Nat.mul_add_lt_is_or (b := u / 2 ^ n) (i := k) hxlt (2 ^ n - 1)
      have h1 : (u / 2 ^ n ||| 2 ^ k * (2 ^ n - 1)) = u / 2 ^ n + 2 ^ k * (2 ^ n - 1) := by
        rw [Nat.lor_comm, ← hior]
        omega
      exact h1
    rw [hx, hmask, hlor]
    clear hmf hmaskfact hlor hmask hx
    obtain ⟨q, r, hqr, hrlt⟩ : ∃ q r, u = 2 ^ n * q + r ∧ r < 2 ^ n :=
      ⟨u / 2 ^ n, u % 2 ^ n, (Nat.div_add_mod u (2 ^ n)).symm,
        Nat.mod_lt _ (by positivity)⟩
    have hq : u / 2 ^ n = q := by
      rw [hqr, Nat.mul_add_div (by positivity), Nat.div_eq_of_lt hrlt, Nat.add_zero]
    rw [hq]
    have hbig : ¬(q + (4294967296 - 2 ^ k) < 2147483648) := by omega
    unfold fromBits32
    rw [if_neg hbig]
    have hKP : ((2 ^ k : Nat) : Int) * ((2 ^ n : Nat) : Int) = 4294967296 := by
      exact_mod_cast hsplit.symm
    have huI : (u : Int) = ((2 ^ n : Nat) : Int) * (q : Int) + (r : Int) := by
      exact_mod_cast congrArg (Nat.cast : Nat → Int) hqr
    have hadecomp : a = (r : Int) + ((q : Int) - ((2 ^ k : Nat) : Int)) * ((2 ^ n : Nat) : Int) := by
      have h3 : (u : Int) = a + 4294967296 := hu
      nlinarith [huI, hKP, h3]
    have hrhs : a / ((2 : Int) ^ n) = (q : Int) - ((2 ^ k : Nat) : Int) := by
      rw [hdpow, hadecomp, Int.add_mul_ediv_right _ _
        (by exact_mod_cast (Nat.two_pow_pos n).ne')]
      rw [Int.ediv_eq_zero_of_lt (by positivity) (by exact_mod_cast hrlt)]
      ring
    rw [hrhs]
    omega
  · simp only [if_neg (not_lt.2 hpos)]
    have hu : (toBits32 a : Int) = a := toBits32_nonneg_eq a hpos (by omega)
    set u := toBits32 a with hudef
    have hub2 : u < 4294967296 := toBits32_lt a
    rw [Nat.shiftRight_eq_div_pow]
    unfold fromBits32
    have hxlt : u / 2 ^ n < 2147483648 := by
      calc u / 2 ^ n ≤ u / 2 := Nat.div_le_div_left hkn1 (by norm_num)
        _ < 2147483648 := by omega
    rw [if_pos hxlt, hdpow, ← hu]
    norm_cast

/-- C2: `<<` and `>>` on integer-coerced operands: shift magnitudes above 31
give 0; `<<` with a positive shift is a logical left shift (multiplication
mod `2^32`, reinterpreted) and with a negative shift an arithmetic right
shift by the magnitude; `>>` is the mirror image; the arithmetic right shift
sign-extends, i.e. equals division by `2^shift` rounding toward negative
infinity (`Int.fdiv`); shift 0 leaves the value unchanged. -/
theorem C2_shift_semantics (st : PState) (aq bq : ℚ) (ia is : Int)
    (rest : List Value)
    (hst : st.valueStack = .num bq :: .num aq :: rest)
    (hca : ConvertDoubleToInt aq = .ok ia)
    (hcb : ConvertDoubleToInt bq = .ok is) :
    ((31 < is ∨ is < -31) →
      EvalShiftLeft st = (withStack st (.num ((0 : Int) : ℚ) :: rest), .ok ()) ∧
      EvalShiftRight st = (withStack st (.num ((0 : Int) : ℚ) :: rest), .ok ())) ∧
    ((0 < is ∧ is ≤ 31) →
      EvalShiftLeft st =
        (withStack st
          (.num ((fromBits32 ((toBits32 ia * 2 ^ is.toNat) % 4294967296) : Int) : ℚ) :: rest),
          .ok ()) ∧
      EvalShiftRight st =
        (withStack st (.num ((ia.fdiv (2 ^ is.toNat) : Int) : ℚ) :: rest), .ok ())) ∧
    ((is < 0 ∧ -31 ≤ is) →
      EvalShiftLeft st =
        (withStack st (.num ((ia.fdiv (2 ^ (-is).toNat) : Int) : ℚ) :: rest), .ok ()) ∧
      EvalShiftRight st =
        (withStack st
          (.num ((fromBits32 ((toBits32 ia * 2 ^ (-is).toNat) % 4294967296) : Int) : ℚ) :: rest),
          .ok ())) ∧
    (is = 0 →
      EvalShiftLeft st = (withStack st (.num ((ia : Int) : ℚ) :: rest), .ok ()) ∧
      EvalShiftRight st = (withStack st (.num ((ia : Int) : ℚ) :: rest), .ok ())) := by
  have hrange := convert_ok_range aq ia hca
  refine ⟨?_, ?_, ?_, ?_⟩
  · intro h
    constructor
    · unfold EvalShiftLeft withStack
      rw [hst]
      simp only [hca, hcb]
      rw [if_pos (by omega)]
    · unfold EvalShiftRight withStack
      rw [hst]
      simp only [hca, hcb]
      rw [if_pos (by omega)]
  · rintro ⟨h1, h2⟩
    have hnat1 : 1 ≤ is.toNat := by omega
    have hnat2 : is.toNat ≤ 31 := by omega
    constructor
    · unfold EvalShiftLeft withStack
      rw [hst]
      simp only [hca, hcb]
      rw [if_neg (by omega), if_pos (by omega), LogicalShiftLeft_as_mul]
    · unfold EvalShiftRight withStack
      rw [hst]
      simp only [hca, hcb]
      rw [if_neg (by omega), if_pos (by omega),
        ArithmeticShiftRight_eq_fdiv ia is.toNat hrange.1 hrange.2 hnat1 hnat2]
  · rintro ⟨h1, h2⟩
    have hnat1 : 1 ≤ (-is).toNat := by omega
    have hnat2 : (-is).toNat ≤ 31 := by omega
    constructor
    · unfold EvalShiftLeft withStack
      rw [hst]
      simp only [hca, hcb]
      rw [if_neg (by omega), if_neg (by omega), if_neg (by omega),
        ArithmeticShiftRight_eq_fdiv ia (-is).toNat hrange.1 hrange.2 hnat1 hnat2]
    · unfold EvalShiftRight withStack
      rw [hst]
      simp only [hca, hcb]
      rw [if_neg (by omega), if_neg (by omega), if_neg (by omega),
        LogicalShiftLeft_as_mul]
  · rintro rfl
    constructor
    · unfold EvalShiftLeft withStack
      rw [hst]
      simp only [hca, hcb]
      rw [if_neg (by omega), if_neg (by omega)]
      norm_num
    · unfold EvalShiftRight withStack
      rw [hst]
      simp only [hca, hcb]
      rw [if_neg (by omega), if_neg (by omega)]
      norm_num

/-- C2 witness: `-8 >> 2` is `-2` (sign-extension as floor division). -/
theorem C2_witness :
    EvalShiftRight (stackState [.num 2, .num (-8)]) =
      (withStack (stackState [.num 2, .num (-8)])
        (.num (((-8 : Int).fdiv (2 ^ (2 : Int).toNat) : Int) : ℚ) :: []), .ok ()) := by
  have h := (C2_shift_semantics (stackState [.num 2, .num (-8)]) (-8) 2 (-8) 2 []
    rfl (by rfl) (by rfl)).2.1 (by norm_num)
  exact h.2

/-! ### The stack discipline of the driver loop (claims C7 and C10)

`opWeight` counts, for the operators currently stacked, how many values of
the value stack are already "owned" by them: a binary operator owns its left
operand, a closed prefix function owns all its arguments, an open-bracket
sentinel attached to a prefix function owns the arguments already separated
by commas.  The loop invariant `Inv` states that the value-stack length
(plus a pending-comma correction) always equals this weight plus one when a
completed value is on top (`expected = binary`). -/

/-- Values consumed by the operator's handler (0 for sentinels). -/
def hConsumes (op : Operator) : Int :=
  match op.handler with
  | some h => (consumes h : Int)
  | none => 0

/-- A prefix-function row: has a handler and its token ends in `(`. -/
def isFnTok (op : Operator) : Bool :=
  op.handler.isSome && endsInParen op.token

/-- The number of values on the value stack owned by the stacked operators
(head = top of stack). -/
def opWeight : List Operator → Int
  | [] => 0
  | [op] =>
    match op.handler with
    | some h => (consumes h : Int) - 1
    | none => 0
  | op :: f :: rest =>
    match op.handler with
    | some h => ((consumes h : Int) - 1) + opWeight (f :: rest)
    | none =>
      if isFnTok f then (hConsumes f - 1 - op.parameterCount) + opWeight rest
      else opWeight (f :: rest)

/-- Well-formedness of a sentinel's comma countdown relative to the element
below it. -/
def sentOKB (op : Operator) (rest : List Operator) : Bool :=
  match rest with
  | f :: _ =>
    if isFnTok f then 0 ≤ op.parameterCount && op.parameterCount ≤ hConsumes f - 1
    else op.parameterCount == 0
  | [] => op.parameterCount == 0

/-- Well-formedness of the operator stack: every sentinel's countdown is
within range (and bare sentinels have countdown 0). -/
def WFopsB : List Operator → Bool
  | [] => true
  | op :: rest =>
    (match op.handler with
     | some _ => true
     | none => sentOKB op rest) && WFopsB rest

/-- The pending-comma counter, when non-zero, belongs to the function token
just pushed. -/
def pendingShapeB (st : PState) : Bool :=
  match st.opStack with
  | f :: _ => isFnTok f && (st.pendingCommaCount == hConsumes f - 1)
  | [] => false

/-- `1` when a completed value is expected on top of the stack. -/
def bitOf : TYPE → Int
  | .binary => 1
  | .valueOrUnary => 0

/-- The loop invariant of `EvaluateExpression`. -/
structure LoopInv (st : PState) : Prop where
  wf : WFopsB st.opStack = true
  count : (st.valueStack.length : Int) + st.pendingCommaCount =
    opWeight st.opStack + bitOf st.expected
  pnn : 0 ≤ st.pendingCommaCount
  pend : st.pendingCommaCount ≠ 0 →
    st.expected = .valueOrUnary ∧ pendingShapeB st = true ∧
    st.column < st.line.length ∧ asciiToUpper (st.line.getD st.column ' ') = '('
  binp : st.expected = .binary → st.pendingCommaCount = 0

/-- All state components a handler leaves untouched. -/
def frameEq (st st' : PState) : Prop :=
  st'.line = st.line ∧ st'.column = st.column ∧ st'.opStack = st.opStack ∧
  st'.bracketCount = st.bracketCount ∧
  st'.pendingCommaCount = st.pendingCommaCount ∧ st'.expected = st.expected

/-- A successful handler application pops `consumes h` values, pushes one,
and touches nothing but the value stack and the PRNG cursor. -/
theorem applyH_ok (recE : List Char → Nat → Option (PState × Except AsmErr Value))
    (ctx : Ctx) (h : Handler) (st st' : PState)
    (hap : applyH recE ctx h st = some (st', .ok ())) :
    st'.valueStack.length + consumes h = st.valueStack.length + 1 ∧ frameEq st st' := by
  cases h <;>
  · simp only [applyH, EvalAdd, EvalSubtract, EvalMultiply, EvalDivide, EvalPower, EvalDiv,
      EvalMod, EvalShiftLeft, EvalShiftRight, EvalAnd, EvalOr, EvalEor, EvalEqual,
      EvalNotEqual, EvalLessThanOrEqual, EvalMoreThanOrEqual, EvalLessThan, EvalMoreThan,
      EvalNegate, EvalPosate, EvalNot, EvalLo, EvalHi, EvalSin, EvalCos, EvalTan,
      EvalArcSin, EvalArcCos, EvalArcTan, EvalSqrt, EvalDegToRad, EvalRadToDeg, EvalInt,
      EvalAbs, EvalSgn, EvalRnd, EvalLog, EvalLn, EvalExp, EvalTime, EvalStr, EvalStrHex,
      EvalVal, EvalLen, EvalChr, EvalAsc, EvalMid, EvalLeft, EvalRight, EvalString,
      EvalUpper, EvalLower, evalMathErr, FormatAssemblyTime] at hap
    repeat' split at hap
    all_goals (try (replace hap := hap.symm))
    all_goals simp_all [consumes, frameEq]

/-- Specification of a handler-application function, as satisfied by
`applyH` (see `applyH_ok`). -/
def applySpec (apply : Handler → PState → Option (PState × Except AsmErr Unit)) : Prop :=
  ∀ h st st', apply h st = some (st', .ok ()) →
    st'.valueStack.length + consumes h = st.valueStack.length + 1 ∧ frameEq st st'

/-- State components preserved by the pop loops (everything except the two
stacks and the PRNG cursor). -/
def popFrame (st st' : PState) : Prop :=
  st'.line = st.line ∧ st'.column = st.column ∧ st'.bracketCount = st.bracketCount ∧
  st'.pendingCommaCount = st.pendingCommaCount ∧ st'.expected = st.expected

theorem popFrame_refl (st : PState) : popFrame st st :=
  ⟨rfl, rfl, rfl, rfl, rfl⟩

/-- Weight of a handler operator on top of the stack. -/
theorem opWeight_cons_handler (op : Operator) (rest : List Operator) (h : Handler)
    (hh : op.handler = some h) :
    opWeight (op :: rest) = ((consumes h : Int) - 1) + opWeight rest := by
  cases rest <;> simp [opWeight, hh]

/-- Well-formedness restricts to any suffix. -/
theorem WFopsB_suffix : ∀ (hs l : List Operator), WFopsB (hs ++ l) = true → WFopsB l = true := by
  intro hs
  induction hs with
  | nil => simp
  | cons x xs ih =>
    intro l hwf
    apply ih
    have h2 := hwf
    rw [List.cons_append, WFopsB, Bool.and_eq_true] at h2
    exact h2.2

/-- The precedence-guarded pop loop: on success it pops some prefix of
handler operators, preserving the difference between value-stack length and
operator-stack weight, and everything outside the stacks. -/
theorem popWhileF_ok (apply : Handler → PState → Option (PState × Except AsmErr Unit))
    (hspec : applySpec apply) (cond : Operator → Bool) :
    ∀ (ops : List Operator) (st st' : PState),
    st.opStack = ops →
    popWhileF apply cond ops st = some (st', .ok ()) →
    ∃ n, st'.opStack = ops.drop n ∧
      (st'.valueStack.length : Int) - opWeight (ops.drop n) =
        (st.valueStack.length : Int) - opWeight ops ∧
      popFrame st st' := by
  intro ops
  induction ops with
  | nil =>
    intro st st' hops hrun
    simp only [popWhileF, Option.some.injEq, Prod.mk.injEq] at hrun
    obtain ⟨rfl, -⟩ := hrun
    exact ⟨0, hops, by simp, popFrame_refl st⟩
  | cons op rest ih =>
    intro st st' hops hrun
    rw [popWhileF] at hrun
    split at hrun
    · split at hrun
      next hnone => simp at hrun
      next h hh =>
        split at hrun
        next => exact absurd hrun (by simp)
        next st1 e heq => simp at hrun
        next st1 heq =>
          obtain ⟨hlen, hline, hcol, hopst, hbr, hpend, hexp⟩ :=
            hspec h { st with opStack := rest } st1 heq
          have hst1ops : st1.opStack = rest := hopst
          obtain ⟨n, hops', hw, hf⟩ := ih st1 st' hst1ops hrun
          refine ⟨n + 1, by simpa using hops', ?_, ?_⟩
          · rw [List.drop_succ_cons, opWeight_cons_handler op rest h hh]
            have hlen' : st1.valueStack.length + consumes h =
                st.valueStack.length + 1 := hlen
            omega
          · obtain ⟨h1, h2, h3, h4, h5⟩ := hf
            exact ⟨h1.trans hline, h2.trans hcol, h3.trans hbr, h4.trans hpend,
              h5.trans hexp⟩
    · simp only [Option.some.injEq, Prod.mk.injEq] at hrun
      obtain ⟨rfl, -⟩ := hrun
      exact ⟨0, hops, by simp, popFrame_refl st⟩

/-- The pop-until-open-bracket loop, "not found" outcome: the whole stack
consisted of handler operators, all were executed. -/
theorem popToBracketF_none (apply : Handler → PState → Option (PState × Except AsmErr Unit))
    (hspec : applySpec apply) :
    ∀ (ops : List Operator) (st st' : PState),
    st.opStack = ops →
    popToBracketF apply ops st = some (st', .ok none) →
    st'.opStack = [] ∧
    (st'.valueStack.length : Int) = (st.valueStack.length : Int) - opWeight ops ∧
    popFrame st st' := by
  intro ops
  induction ops with
  | nil =>
    intro st st' hops hrun
    simp only [popToBracketF, Option.some.injEq, Prod.mk.injEq] at hrun
    obtain ⟨rfl, -⟩ := hrun
    exact ⟨hops, by simp [opWeight], popFrame_refl st⟩
  | cons op rest ih =>
    intro st st' hops hrun
    rw [popToBracketF] at hrun
    split at hrun
    next hnone => simp at hrun
    next h hh =>
      split at hrun
      next => exact absurd hrun (by simp)
      next st1 e heq => simp at hrun
      next st1 heq =>
        obtain ⟨hlen, hline, hcol, hopst, hbr, hpend, hexp⟩ :=
          hspec h { st with opStack := rest } st1 heq
        obtain ⟨hops', hw, hf⟩ := ih st1 st' hopst hrun
        have hlen' : st1.valueStack.length + consumes h = st.valueStack.length + 1 := hlen
        refine ⟨hops', ?_, ?_⟩
        · rw [opWeight_cons_handler op rest h hh]
          omega
        · obtain ⟨h1, h2, h3, h4, h5⟩ := hf
          exact ⟨h1.trans hline, h2.trans hcol, h3.trans hbr, h4.trans hpend,
            h5.trans hexp⟩

/-- The pop-until-open-bracket loop, "found" outcome: some handler prefix is
executed, then the sentinel is popped and returned. -/
theorem popToBracketF_found (apply : Handler → PState → Option (PState × Except AsmErr Unit))
    (hspec : applySpec apply) :
    ∀ (ops : List Operator) (st st' : PState) (sent : Operator),
    st.opStack = ops →
    popToBracketF apply ops st = some (st', .ok (some sent)) →
    ∃ hs, ops = hs ++ sent :: st'.opStack ∧ sent.handler = none ∧
      (st'.valueStack.length : Int) - opWeight (sent :: st'.opStack) =
        (st.valueStack.length : Int) - opWeight ops ∧
      popFrame st st' := by
  intro ops
  induction ops with
  | nil =>
    intro st st' sent hops hrun
    simp [popToBracketF] at hrun
  | cons op rest ih =>
    intro st st' sent hops hrun
    rw [popToBracketF] at hrun
    split at hrun
    next hnone =>
      simp only [Option.some.injEq, Prod.mk.injEq] at hrun
      obtain ⟨rfl, hsent⟩ := hrun
      obtain ⟨rfl⟩ : sent = op := by
        cases hsent
        rfl
      refine ⟨[], by simp, hnone, by simp, popFrame_refl st⟩
    next h hh =>
      split at hrun
      next => exact absurd hrun (by simp)
      next st1 e heq => simp at hrun
      next st1 heq =>
        obtain ⟨hlen, hline, hcol, hopst, hbr, hpend, hexp⟩ :=
          hspec h { st with opStack := rest } st1 heq
        obtain ⟨hs, hdec, hsnone, hw, hf⟩ := ih st1 st' sent hopst hrun
        have hlen' : st1.valueStack.length + consumes h = st.valueStack.length + 1 := hlen
        refine ⟨op :: hs, by rw [List.cons_append, ← hdec], hsnone, ?_, ?_⟩
        · rw [opWeight_cons_handler op rest h hh, hdec] at *
          omega
        · obtain ⟨h1, h2, h3, h4, h5⟩ := hf
          exact ⟨h1.trans hline, h2.trans hcol, h3.trans hbr, h4.trans hpend,
            h5.trans hexp⟩

/-- The final purge: on success the whole stack was handler operators, all
were executed. -/
theorem drainF_ok (apply : Handler → PState → Option (PState × Except AsmErr Unit))
    (hspec : applySpec apply) :
    ∀ (ops : List Operator) (st st' : PState),
    st.opStack = ops →
    drainF apply ops st = some (st', .ok ()) →
    st'.opStack = [] ∧
    (st'.valueStack.length : Int) = (st.valueStack.length : Int) - opWeight ops ∧
    popFrame st st' := by
  intro ops
  induction ops with
  | nil =>
    intro st st' hops hrun
    simp only [drainF, Option.some.injEq, Prod.mk.injEq] at hrun
    obtain ⟨rfl, -⟩ := hrun
    exact ⟨hops, by simp [opWeight], popFrame_refl st⟩
  | cons op rest ih =>
    intro st st' hops hrun
    rw [drainF] at hrun
    split at hrun
    next hnone => simp at hrun
    next h hh =>
      split at hrun
      next => exact absurd hrun (by simp)
      next st1 e heq => simp at hrun
      next st1 heq =>
        obtain ⟨hlen, hline, hcol, hopst, hbr, hpend, hexp⟩ :=
          hspec h { st with opStack := rest } st1 heq
        obtain ⟨hops', hw, hf⟩ := ih st1 st' hopst hrun
        have hlen' : st1.valueStack.length + consumes h = st.valueStack.length + 1 := hlen
        refine ⟨hops', ?_, ?_⟩
        · rw [opWeight_cons_handler op rest h hh]
          omega
        · obtain ⟨h1, h2, h3, h4, h5⟩ := hf
          exact ⟨h1.trans hline, h2.trans hcol, h3.trans hbr, h4.trans hpend,
            h5.trans hexp⟩

/-! ### Facts about the operator tables and token matching -/

/-- Row discipline of the unary table: sentinels carry no parameters;
function rows (token ending in `(`) record exactly their handler's arity in
`parameterCount`; bare prefix rows have 1-consuming handlers. -/
def unaryRowOK (op : Operator) : Bool :=
  match op.handler with
  | none => op.parameterCount == 0 && !endsInParen op.token
  | some h =>
    if endsInParen op.token then op.parameterCount == (consumes h : Int) && 1 ≤ consumes h
    else consumes h == 1

/-- Row discipline of the binary table: every handler consumes two values. -/
def binaryRowOK (op : Operator) : Bool :=
  match op.handler with
  | none => op.parameterCount == 0
  | some h => consumes h == 2

theorem unaryTable_ok : unaryOperatorTable.all unaryRowOK = true := by rfl

theorem binaryTable_ok : binaryOperatorTable.all binaryRowOK = true := by rfl

/-- `findTok` returns a member of its table. -/
theorem findTok_mem (line : List Char) (col : Nat) :
    ∀ (tbl : List Operator) (op : Operator), findTok line col tbl = some op → op ∈ tbl := by
  intro tbl
  induction tbl with
  | nil => intro op h; simp [findTok] at h
  | cons x xs ih =>
    intro op h
    rw [findTok] at h
    split at h
    · simp only [Option.some.injEq] at h
      subst h
      exact List.mem_cons_self x xs
    · exact List.mem_cons_of_mem x (ih op h)

/-- A successful token match pins down each line character (up to ASCII
upcasing) and keeps the cursor in bounds. -/
theorem matchTok_spec : ∀ (tok line : List Char) (i : Nat),
    matchTok line i tok = true →
    ∀ j, j < tok.length →
      i + j < line.length ∧ tok.getD j ' ' = asciiToUpper (line.getD (i + j) ' ') := by
  intro tok
  induction tok with
  | nil => intro line i _ j hj; simp at hj
  | cons c cs ih =>
    intro line i hm j hj
    rw [matchTok] at hm
    split at hm
    next hcond =>
      rcases j with _ | j'
      · refine ⟨by simpa using hcond.1, ?_⟩
        simp only [List.getD_cons_zero, Nat.add_zero]
        exact hcond.2
      · have hih := ih line (i + 1) hm j' (by simpa using hj)
        refine ⟨by omega, ?_⟩
        have heq : i + (j' + 1) = i + 1 + j' := by omega
        rw [List.getD_cons_succ, heq]
        exact hih.2
    next => exact absurd hm (by simp)

/-- A token ending in `(` matched at `i` forces an upcased `(` on the line
at the token's last position. -/
theorem matchTok_paren (tok line : List Char) (i : Nat)
    (hm : matchTok line i tok = true) (hp : endsInParen tok = true) :
    i + tok.length - 1 < line.length ∧
    asciiToUpper (line.getD (i + tok.length - 1) ' ') = '(' := by
  have hlen : 1 < tok.length := by
    have := hp
    unfold endsInParen at this
    simp at this
    omega
  have hspec := matchTok_spec tok line i hm (tok.length - 1) (by omega)
  have hlast : tok.getD (tok.length - 1) ' ' = '(' := by
    have h2 := hp
    unfold endsInParen at h2
    simp only [Bool.and_eq_true, decide_eq_true_eq] at h2
    have h3 := h2.2
    rw [List.getLast?_eq_getElem?] at h3
    rw [List.getD_eq_getElem?_getD, h3]
    rfl
  have heq : i + tok.length - 1 = i + (tok.length - 1) := by omega
  constructor
  · rw [heq]
    exact hspec.1
  · rw [heq, ← hlast, hspec.2]


/-- At a `(` (up to upcasing) the unary table always matches its first row,
the open-bracket sentinel. -/
theorem findTok_paren (line : List Char) (col : Nat) (hcol : col < line.length)
    (hup : asciiToUpper (line.getD col ' ') = '(') :
    findTok line col unaryOperatorTable = some ⟨"(".toList, -1, 0, none⟩ := by
  have hm : matchTok line col ("(".toList) = true := by
    rw [show ("(".toList) = ['('] from rfl, matchTok, if_pos ⟨hcol, hup.symm⟩]
    rfl
  rw [unaryOperatorTable, findTok, if_pos hm]

/-- `GetValue` only moves the cursor. -/
theorem GetValue_frame (ctx : Ctx) (st st' : PState) (r : Except AsmErr Value)
    (h : GetValue ctx st = (st', r)) : st' = { st with column := st'.column } := by
  unfold GetValue at h
  repeat' split at h
  all_goals (try dsimp only [] at h)
  all_goals repeat' split at h
  all_goals (injection h with h1 h2; subst h1; rfl)

/-- `advanceAndCheck` only moves the cursor forward over whitespace, and a
`true` verdict guarantees an in-bounds cursor. -/
theorem advanceAndCheck_cases (st : PState) (tl : Bool) :
    (advanceAndCheck st tl).1 =
      { st with column := st.column + wsCount (st.line.drop st.column) } ∧
    ((advanceAndCheck st tl).2 = true →
      st.column + wsCount (st.line.drop st.column) < st.line.length) := by
  simp only [advanceAndCheck]
  refine ⟨?_, ?_⟩
  · split_ifs <;> rfl
  · split_ifs with h1 h2
    · simp
    · simp
    · intro h
      omega

/-- At a significant `(` the advance is a no-op returning `true`. -/
theorem advance_at_paren (st : PState) (tl : Bool) (hcol : st.column < st.line.length)
    (hup : asciiToUpper (st.line.getD st.column ' ') = '(') :
    advanceAndCheck st tl = ({ st with column := st.column }, true) := by
  have hgetD : st.line.getD st.column ' ' = st.line[st.column] := by
    rw [List.getD_eq_getElem?_getD, List.getElem?_eq_getElem hcol]
    rfl
  have hdrop : st.line.drop st.column = st.line[st.column] :: st.line.drop (st.column + 1) :=
    List.drop_eq_getElem_cons hcol
  have hnotws : ¬(st.line[st.column] = ' ' ∨ st.line[st.column] = '\t') := by
    rintro (hx | hx) <;>
      · rw [hgetD, hx] at hup
        exact absurd hup (by decide)
  have hws : wsCount (st.line.drop st.column) = 0 := by
    rw [hdrop, wsCount, if_neg hnotws]
  simp only [advanceAndCheck]
  rw [hws, Nat.add_zero]
  rw [if_neg (by omega)]
  rw [if_neg ?hterm]
  case hterm =>
    rintro ⟨-, hx | hx⟩ <;>
      · rw [hx] at hup
        exact absurd hup (by decide)

/-- Every handler consumes at least one value. -/
theorem consumes_pos (h : Handler) : 1 ≤ consumes h := by
  cases h <;> simp [consumes]

/-- `findTok` success means the returned row's token matched at the cursor. -/
theorem findTok_matches : ∀ (tbl : List Operator) (line : List Char) (col : Nat) (op : Operator),
    findTok line col tbl = some op → matchTok line col op.token = true := by
  intro tbl
  induction tbl with
  | nil => intro line col op h; simp [findTok] at h
  | cons x xs ih =>
    intro line col op h
    rw [findTok] at h
    split at h
    next hm =>
      injection h with h
      subst h
      exact hm
    next => exact ih line col op h

/-- Whitespace skipping preserves the loop invariant. -/
theorem advance_inv (st : PState) (tl : Bool) (hinv : LoopInv st) :
    LoopInv (advanceAndCheck st tl).1 := by
  rcases eq_or_ne st.pendingCommaCount 0 with h0 | h0
  · obtain ⟨hfst, -⟩ := advanceAndCheck_cases st tl
    rw [hfst]
    exact { wf := hinv.wf, count := hinv.count, pnn := hinv.pnn,
            pend := fun hne => absurd h0 hne, binp := fun _ => h0 }
  · obtain ⟨-, -, hcol, hch⟩ := hinv.pend h0
    rw [advance_at_paren st tl hcol hch]
    exact hinv

/-- A `true` verdict from the whitespace skip leaves the cursor in bounds. -/
theorem advance_bound (st : PState) (tl : Bool) :
    (advanceAndCheck st tl).2 = true →
    (advanceAndCheck st tl).1.column < (advanceAndCheck st tl).1.line.length := by
  obtain ⟨hfst, hb⟩ := advanceAndCheck_cases st tl
  intro h
  rw [hfst]
  exact hb h

/-- A `false` verdict from the whitespace skip is impossible while a comma
countdown is pending (the cursor then sits on a significant `(`). -/
theorem advance_false_pending (st : PState) (tl : Bool) (hinv : LoopInv st) :
    (advanceAndCheck st tl).2 = false → (advanceAndCheck st tl).1.pendingCommaCount = 0 := by
  rcases eq_or_ne st.pendingCommaCount 0 with h0 | h0
  · intro _
    obtain ⟨hfst, -⟩ := advanceAndCheck_cases st tl
    rw [hfst]
    exact h0
  · obtain ⟨-, -, hcol, hch⟩ := hinv.pend h0
    rw [advance_at_paren st tl hcol hch]
    intro h
    exact absurd h (by simp)

/-- `finishExpr` success under the counting invariant: the drained state holds
exactly the returned value. -/
theorem finishExpr_ok (apply : Handler → PState → Option (PState × Except AsmErr Unit))
    (hspec : applySpec apply) (st st' : PState) (v : Value)
    (hcount : (st.valueStack.length : Int) ≤ opWeight st.opStack + 1)
    (h : finishExpr apply st = some (st', .ok v)) :
    st'.valueStack = [v] ∧ st'.opStack = [] := by
  unfold finishExpr at h
  split at h
  next => simp at h
  next st2 e heq => simp at h
  next st2 heq =>
    obtain ⟨hops, hlen, -⟩ := drainF_ok apply hspec st.opStack st st2 rfl heq
    split at h
    next => simp at h
    next w hw =>
      simp only [Option.some.injEq, Prod.mk.injEq, Except.ok.injEq] at h
      obtain ⟨rfl, rfl⟩ := h
      have h1 : st2.valueStack.length ≤ 1 := by omega
      rcases hvs : st2.valueStack with - | ⟨x, rest⟩
      · rw [hvs] at hw
        simp at hw
      · rw [hvs] at h1 hw
        have hr : rest = [] := by
          simp only [List.length_cons] at h1
          exact List.eq_nil_of_length_eq_zero (by omega)
        subst hr
        simp only [List.getLast?_singleton, Option.some.injEq] at hw
        subst hw
        exact ⟨rfl, hops⟩

/-- Weight of a one-element sentinel stack. -/
theorem opWeight_none_nil (op : Operator) (hh : op.handler = none) :
    opWeight [op] = 0 := by
  simp [opWeight, hh]

/-- Weight of a sentinel atop a non-empty stack. -/
theorem opWeight_none_cons (op f : Operator) (rest : List Operator) (hh : op.handler = none) :
    opWeight (op :: f :: rest) =
      if isFnTok f then (hConsumes f - 1 - op.parameterCount) + opWeight rest
      else opWeight (f :: rest) := by
  simp [opWeight, hh]

/-- Replacing the cursor keeps the invariant when no comma countdown is
pending. -/
theorem LoopInv_set_column (st : PState) (c : Nat) (hp0 : st.pendingCommaCount = 0)
    (hinv : LoopInv st) : LoopInv { st with column := c } :=
  { wf := hinv.wf, count := hinv.count, pnn := hinv.pnn,
    pend := fun hne => absurd hp0 hne, binp := fun _ => hp0 }

/-- Pushing a completed value flips `expected` to `binary` and keeps the
invariant. -/
theorem LoopInv_push_value (st : PState) (v : Value) (hexp : st.expected = .valueOrUnary)
    (hp0 : st.pendingCommaCount = 0) (hinv : LoopInv st) :
    LoopInv { st with valueStack := v :: st.valueStack, expected := .binary } := by
  refine { wf := hinv.wf, pnn := hinv.pnn, pend := fun hne => absurd hp0 hne,
           binp := fun _ => hp0, count := ?_ }
  show ((v :: st.valueStack).length : Int) + st.pendingCommaCount =
    opWeight st.opStack + bitOf .binary
  have hc := hinv.count
  rw [hexp] at hc
  simp only [bitOf] at hc ⊢
  simp only [List.length_cons]
  push_cast
  omega

/-- A handler operator may sit on any well-formed stack. -/
theorem WFopsB_cons_handler (op : Operator) (rest : List Operator) (h : Handler)
    (hh : op.handler = some h) (hwf : WFopsB rest = true) : WFopsB (op :: rest) = true := by
  rw [WFopsB, hh, Bool.and_eq_true]
  exact ⟨rfl, hwf⟩

/-- Dropping operators preserves stack well-formedness. -/
theorem WFopsB_drop (n : Nat) (ops : List Operator) (h : WFopsB ops = true) :
    WFopsB (ops.drop n) = true := by
  have h2 := h
  rw [← List.take_append_drop n ops] at h2
  exact WFopsB_suffix _ _ h2

/-- Unpacking `pendingShapeB`: a function row sits on top and owns the
countdown. -/
theorem pendingShapeB_spec (st : PState) (h : pendingShapeB st = true) :
    ∃ f t, st.opStack = f :: t ∧ isFnTok f = true ∧
      st.pendingCommaCount = hConsumes f - 1 := by
  unfold pendingShapeB at h
  split at h
  next f t heq =>
    rw [Bool.and_eq_true, beq_iff_eq] at h
    exact ⟨f, t, heq, h.1, h.2⟩
  next => simp at h

/-- Unpacking `sentOKB` for a sentinel with a live countdown: a function row
sits just below and bounds the countdown. -/
theorem sentOKB_spec (op : Operator) (rest : List Operator) (h : sentOKB op rest = true)
    (hne : op.parameterCount ≠ 0) :
    ∃ f t, rest = f :: t ∧ isFnTok f = true ∧ 0 ≤ op.parameterCount ∧
      op.parameterCount ≤ hConsumes f - 1 := by
  unfold sentOKB at h
  split at h
  next f t =>
    split at h
    next hfn =>
      rw [Bool.and_eq_true, decide_eq_true_eq, decide_eq_true_eq] at h
      exact ⟨f, t, rfl, hfn, h.1, h.2⟩
    next => exact absurd (by simpa using h) hne
  next => exact absurd (by simpa using h) hne

/-- Pushing an open-bracket sentinel that absorbs the pending countdown keeps
the stack well-formed and accounts for the weight change. -/
theorem sent_push (op : Operator) (ops : List Operator) (p V : Int)
    (hh : op.handler = none) (hpc : op.parameterCount = p)
    (hwf : WFopsB ops = true) (hpnn : 0 ≤ p)
    (hcount : V + p = opWeight ops)
    (hshape : p ≠ 0 → ∃ f t, ops = f :: t ∧ isFnTok f = true ∧ p = hConsumes f - 1) :
    WFopsB (op :: ops) = true ∧ V = opWeight (op :: ops) := by
  cases ops with
  | nil =>
    have hp0 : p = 0 := by
      by_contra h0
      obtain ⟨f, t, hft, -⟩ := hshape h0
      simp at hft
    constructor
    · rw [WFopsB, hh, Bool.and_eq_true]
      refine ⟨?_, rfl⟩
      show sentOKB op [] = true
      unfold sentOKB
      simp [hpc, hp0]
    · rw [opWeight_none_nil op hh]
      simp only [opWeight] at hcount
      omega
  | cons f t =>
    by_cases hfn : isFnTok f = true
    · obtain ⟨hf, hfh⟩ : ∃ hf, f.handler = some hf := by
        have h2 := hfn
        rw [isFnTok, Bool.and_eq_true] at h2
        exact Option.isSome_iff_exists.mp h2.1
      have hcp : 1 ≤ consumes hf := consumes_pos hf
      have hcf : hConsumes f = (consumes hf : Int) := by simp [hConsumes, hfh]
      have hple : p ≤ hConsumes f - 1 := by
        rcases eq_or_ne p 0 with h0 | h0
        · rw [h0, hcf]
          omega
        · obtain ⟨f', t', hft, -, hp⟩ := hshape h0
          injection hft with h1 h2
          rw [← h1] at hp
          rw [hp]
      constructor
      · rw [WFopsB, hh, Bool.and_eq_true]
        refine ⟨?_, hwf⟩
        show sentOKB op (f :: t) = true
        unfold sentOKB
        simp only []
        rw [if_pos hfn, Bool.and_eq_true, decide_eq_true_eq, decide_eq_true_eq]
        rw [hpc]
        exact ⟨hpnn, hple⟩
      · rw [opWeight_none_cons op f t hh, if_pos hfn]
        rw [opWeight_cons_handler f t hf hfh] at hcount
        rw [hpc, hcf]
        rw [hcf] at hple
        omega
    · have hp0 : p = 0 := by
        by_contra h0
        obtain ⟨f', t', hft, hfn', -⟩ := hshape h0
        injection hft with h1 h2
        rw [← h1] at hfn'
        exact absurd hfn' hfn
      constructor
      · rw [WFopsB, hh, Bool.and_eq_true]
        refine ⟨?_, hwf⟩
        show sentOKB op (f :: t) = true
        unfold sentOKB
        simp only []
        rw [if_neg hfn]
        simp [hpc, hp0]
      · rw [opWeight_none_cons op f t hh, if_neg hfn]
        omega

/-- Main loop analysis: a successful run of the driver loop from an invariant
state ends with exactly the returned value on the value stack and an empty
operator stack. -/
theorem evalLoop_ok (ctx : Ctx) :
    ∀ (fuel : Nat) (allow : Bool) (st st' : PState) (v : Value),
    LoopInv st →
    evalLoop ctx fuel allow st = some (st', .ok v) →
    st'.valueStack = [v] ∧ st'.opStack = [] := by
  intro fuel
  induction fuel with
  | zero =>
    intro allow st st' v _ hrun
    simp [evalLoop] at hrun
  | succ fuel ih =>
    intro allow st st' v hinv hrun
    have hinv1 := advance_inv st (st.bracketCount == 0) hinv
    have hbound := advance_bound st (st.bracketCount == 0)
    have hfp := advance_false_pending st (st.bracketCount == 0) hinv
    have hspec : applySpec (applyH (fun l ri =>
        evalLoop ctx fuel false
          { line := l, column := 0, valueStack := [], opStack := [], bracketCount := 0,
            pendingCommaCount := 0, expected := .valueOrUnary, randIdx := ri }) ctx) :=
      fun hh s s' hap => applyH_ok _ ctx hh s s' hap
    rw [evalLoop] at hrun
    simp only [] at hrun
    rcases hadv : advanceAndCheck st (st.bracketCount == 0) with ⟨st1, cont⟩
    rw [hadv] at hrun hinv1 hbound hfp
    simp only [] at hrun hinv1 hbound hfp
    split at hrun
    next hcont =>
      have hp0 : st1.pendingCommaCount = 0 := hfp hcont
      have hcount : (st1.valueStack.length : Int) ≤ opWeight st1.opStack + 1 := by
        have hc := hinv1.count
        have hb : bitOf st1.expected = 0 ∨ bitOf st1.expected = 1 := by
          cases hq : st1.expected <;> simp [bitOf]
        rcases hb with hb | hb <;> omega
      exact finishExpr_ok _ hspec st1 st' v hcount hrun
    next hcont =>
      have hct : cont = true := by
        cases cont
        · exact absurd rfl hcont
        · rfl
      have hcb : st1.column < st1.line.length := hbound hct
      split at hrun
      next heqexp =>
        -- expecting a value or unary operator
        split at hrun
        next hft =>
          -- no table token: read a value
          have hp0 : st1.pendingCommaCount = 0 := by
            by_contra h0
            obtain ⟨-, -, hcol, hch⟩ := hinv1.pend h0
            rw [findTok_paren st1.line st1.column hcol hch] at hft
            exact absurd hft (by simp)
          split at hrun
          next => simp at hrun
          next hmax =>
            split at hrun
            next st2 v2 hgv =>
              have hframe := GetValue_frame ctx st1 st2 _ hgv
              have h2 : LoopInv st2 := by
                have h3 := LoopInv_set_column st1 st2.column hp0 hinv1
                rw [← hframe] at h3
                exact h3
              have hexp2 : st2.expected = .valueOrUnary := by
                rw [hframe]
                exact heqexp
              have hp02 : st2.pendingCommaCount = 0 := by
                rw [hframe]
                exact hp0
              exact ih allow _ st' v (LoopInv_push_value st2 v2 hexp2 hp02 h2) hrun
            next st2 hgv =>
              split at hrun <;> simp at hrun
            next st2 e hne hgv => simp at hrun
        next op hft =>
          have hrow : unaryRowOK op = true := by
            have hall := unaryTable_ok
            rw [List.all_eq_true] at hall
            exact hall op (findTok_mem st1.line st1.column unaryOperatorTable op hft)
          by_cases hep : endsInParen op.token = true
          · rw [if_pos hep] at hrun
            split at hrun
            next h1 hh =>
              have h4 : op.parameterCount = ((consumes h1 : Nat) : Int) ∧ 1 ≤ consumes h1 := by
                have h5 := hrow
                rw [unaryRowOK.eq_def, hh] at h5
                simp only [] at h5
                rw [if_pos hep, Bool.and_eq_true, beq_iff_eq, decide_eq_true_eq] at h5
                exact h5
              obtain ⟨h41, h42⟩ := h4
              have hp0 : st1.pendingCommaCount = 0 := by
                by_contra h0
                obtain ⟨-, -, hcol, hch⟩ := hinv1.pend h0
                have hparen := findTok_paren st1.line st1.column hcol hch
                rw [hft] at hparen
                injection hparen with hparen
                rw [hparen] at hh
                simp at hh
              split at hrun
              next => simp at hrun
              next st4 e hpw => simp at hrun
              next st4 hpw =>
                obtain ⟨n, hops4, hw4, hf4⟩ :=
                  popWhileF_ok _ hspec _ st1.opStack _ st4 (by rfl) hpw
                obtain ⟨hl4, hc4, hb4, hp4, he4⟩ := hf4
                have hl4' : st4.line = st1.line := hl4
                have hc4' : st4.column = st1.column + op.token.length - 1 := hc4
                have hp4' : st4.pendingCommaCount = op.parameterCount - 1 := hp4
                have he4' : st4.expected = st1.expected := he4
                have hw4' : (st4.valueStack.length : Int) - opWeight (st1.opStack.drop n) =
                    (st1.valueStack.length : Int) - opWeight st1.opStack := hw4
                split at hrun
                next => simp at hrun
                next hmax2 =>
                  refine ih allow _ st' v ?_ hrun
                  have hc := hinv1.count
                  rw [heqexp] at hc
                  simp only [bitOf] at hc
                  refine { wf := ?_, count := ?_, pnn := ?_, pend := ?_, binp := ?_ }
                  · show WFopsB (op :: st4.opStack) = true
                    refine WFopsB_cons_handler op st4.opStack h1 hh ?_
                    rw [hops4]
                    exact WFopsB_drop n st1.opStack hinv1.wf
                  · show (st4.valueStack.length : Int) + st4.pendingCommaCount =
                      opWeight (op :: st4.opStack) + bitOf st4.expected
                    rw [opWeight_cons_handler op st4.opStack h1 hh, hops4, hp4', he4', heqexp]
                    simp only [bitOf]
                    omega
                  · show 0 ≤ st4.pendingCommaCount
                    rw [hp4']
                    omega
                  · intro hne
                    have hmt := findTok_matches unaryOperatorTable st1.line st1.column op hft
                    obtain ⟨hcl, hch2⟩ := matchTok_paren op.token st1.line st1.column hmt hep
                    refine ⟨?_, ?_, ?_, ?_⟩
                    · show st4.expected = .valueOrUnary
                      rw [he4', heqexp]
                    · show (isFnTok op && (st4.pendingCommaCount == hConsumes op - 1)) = true
                      rw [Bool.and_eq_true]
                      constructor
                      · rw [isFnTok, hh, hep]
                        rfl
                      · rw [beq_iff_eq, hp4', h41]
                        simp [hConsumes, hh]
                    · show st4.column < st4.line.length
                      rw [hc4', hl4']
                      exact hcl
                    · show asciiToUpper (st4.line.getD st4.column ' ') = '('
                      rw [hc4', hl4']
                      exact hch2
                  · intro hb
                    have hb' : st4.expected = TYPE.binary := hb
                    rw [he4', heqexp] at hb'
                    exact absurd hb' (by decide)
            next hh =>
              have h5 := hrow
              rw [unaryRowOK.eq_def, hh] at h5
              simp only [] at h5
              rw [Bool.and_eq_true] at h5
              rw [hep] at h5
              simp at h5
          · rw [if_neg hep] at hrun
            split at hrun
            next h1 hh =>
              have h4 : consumes h1 = 1 := by
                have h5 := hrow
                rw [unaryRowOK.eq_def, hh] at h5
                simp only [] at h5
                rw [if_neg hep, beq_iff_eq] at h5
                exact h5
              have hp0 : st1.pendingCommaCount = 0 := by
                by_contra h0
                obtain ⟨-, -, hcol, hch⟩ := hinv1.pend h0
                have hparen := findTok_paren st1.line st1.column hcol hch
                rw [hft] at hparen
                injection hparen with hparen
                rw [hparen] at hh
                simp at hh
              split at hrun
              next => simp at hrun
              next st4 e hpw => simp at hrun
              next st4 hpw =>
                obtain ⟨n, hops4, hw4, hf4⟩ :=
                  popWhileF_ok _ hspec _ st1.opStack _ st4 (by rfl) hpw
                obtain ⟨hl4, hc4, hb4, hp4, he4⟩ := hf4
                have hp4' : st4.pendingCommaCount = st1.pendingCommaCount := hp4
                have he4' : st4.expected = st1.expected := he4
                have hw4' : (st4.valueStack.length : Int) - opWeight (st1.opStack.drop n) =
                    (st1.valueStack.length : Int) - opWeight st1.opStack := hw4
                split at hrun
                next => simp at hrun
                next hmax2 =>
                  refine ih allow _ st' v ?_ hrun
                  have hc := hinv1.count
                  rw [heqexp] at hc
                  simp only [bitOf] at hc
                  refine { wf := ?_, count := ?_, pnn := ?_, pend := ?_, binp := ?_ }
                  · show WFopsB (op :: st4.opStack) = true
                    refine WFopsB_cons_handler op st4.opStack h1 hh ?_
                    rw [hops4]
                    exact WFopsB_drop n st1.opStack hinv1.wf
                  · show (st4.valueStack.length : Int) + st4.pendingCommaCount =
                      opWeight (op :: st4.opStack) + bitOf st4.expected
                    rw [opWeight_cons_handler op st4.opStack h1 hh, hops4, hp4', he4', heqexp]
                    simp only [bitOf]
                    rw [h4]
                    omega
                  · show 0 ≤ st4.pendingCommaCount
                    rw [hp4', hp0]
                  · intro hne
                    have hne' : st4.pendingCommaCount ≠ 0 := hne
                    rw [hp4', hp0] at hne'
                    exact absurd rfl hne'
                  · intro hb
                    have hb' : st4.expected = TYPE.binary := hb
                    rw [he4', heqexp] at hb'
                    exact absurd hb' (by decide)
            next hh =>
              have h4 : op.parameterCount = 0 ∧ endsInParen op.token = false := by
                have h5 := hrow
                rw [unaryRowOK.eq_def, hh] at h5
                simp only [] at h5
                rw [Bool.and_eq_true, beq_iff_eq, Bool.not_eq_true'] at h5
                exact h5
              split at hrun
              next => simp at hrun
              next hmax2 =>
                refine ih allow _ st' v ?_ hrun
                have hc := hinv1.count
                rw [heqexp] at hc
                simp only [bitOf] at hc
                have hh2 : ({ op with parameterCount := st1.pendingCommaCount } :
                    Operator).handler = none := hh
                have hshape : st1.pendingCommaCount ≠ 0 →
                    ∃ f t, st1.opStack = f :: t ∧ isFnTok f = true ∧
                      st1.pendingCommaCount = hConsumes f - 1 := by
                  intro h0
                  exact pendingShapeB_spec st1 ((hinv1.pend h0).2.1)
                obtain ⟨hwf5, hv5⟩ := sent_push
                  { op with parameterCount := st1.pendingCommaCount }
                  st1.opStack st1.pendingCommaCount (st1.valueStack.length : Int) hh2 rfl
                  hinv1.wf hinv1.pnn (by omega) hshape
                refine { wf := ?_, count := ?_, pnn := ?_, pend := ?_, binp := ?_ }
                · show WFopsB ({ op with parameterCount := st1.pendingCommaCount } ::
                    st1.opStack) = true
                  exact hwf5
                · show (st1.valueStack.length : Int) + (0 : Int) =
                    opWeight ({ op with parameterCount := st1.pendingCommaCount } ::
                      st1.opStack) + bitOf st1.expected
                  rw [heqexp]
                  simp only [bitOf]
                  omega
                · show (0 : Int) ≤ 0
                  omega
                · intro hne
                  exact absurd rfl hne
                · intro hb
                  exact rfl
      next heqexp =>
        have hpb : st1.pendingCommaCount = 0 := hinv1.binp heqexp
        have hc := hinv1.count
        rw [heqexp] at hc
        simp only [bitOf] at hc
        split at hrun
        next hft => simp at hrun
        next op hft =>
          split at hrun
          next h1 hh =>
            have h4 : consumes h1 = 2 := by
              have hall := binaryTable_ok
              rw [List.all_eq_true] at hall
              have h5 := hall op (findTok_mem st1.line st1.column binaryOperatorTable op hft)
              rw [binaryRowOK.eq_def, hh] at h5
              simp only [] at h5
              rw [beq_iff_eq] at h5
              exact h5
            split at hrun
            next => simp at hrun
            next st4 e hpw => simp at hrun
            next st4 hpw =>
              obtain ⟨n, hops4, hw4, hf4⟩ :=
                popWhileF_ok _ hspec _ st1.opStack _ st4 (by rfl) hpw
              obtain ⟨hl4, hc4, hb4, hp4, he4⟩ := hf4
              have hp4' : st4.pendingCommaCount = st1.pendingCommaCount := hp4
              have hw4' : (st4.valueStack.length : Int) - opWeight (st1.opStack.drop n) =
                  (st1.valueStack.length : Int) - opWeight st1.opStack := hw4
              split at hrun
              next => simp at hrun
              next hmax2 =>
                refine ih allow _ st' v ?_ hrun
                refine { wf := ?_, count := ?_, pnn := ?_, pend := ?_, binp := ?_ }
                · show WFopsB (op :: st4.opStack) = true
                  refine WFopsB_cons_handler op st4.opStack h1 hh ?_
                  rw [hops4]
                  exact WFopsB_drop n st1.opStack hinv1.wf
                · show (st4.valueStack.length : Int) + st4.pendingCommaCount =
                    opWeight (op :: st4.opStack) + bitOf TYPE.valueOrUnary
                  rw [opWeight_cons_handler op st4.opStack h1 hh, hops4, hp4']
                  simp only [bitOf]
                  rw [h4]
                  omega
                · show 0 ≤ st4.pendingCommaCount
                  rw [hp4', hpb]
                · intro hne
                  have hne' : st4.pendingCommaCount ≠ 0 := hne
                  rw [hp4', hpb] at hne'
                  exact absurd rfl hne'
                · intro hb
                  show st4.pendingCommaCount = 0
                  rw [hp4', hpb]
          next hh =>
            by_cases hsep : op.token = [',']
            · rw [if_pos hsep] at hrun
              split at hrun
              next => simp at hrun
              next st4 e hpb2 => simp at hrun
              next st4 hpb2 =>
                obtain ⟨hops4, hv4, hf4⟩ :=
                  popToBracketF_none _ hspec st1.opStack _ st4 (by rfl) hpb2
                have hv4' : (st4.valueStack.length : Int) =
                    (st1.valueStack.length : Int) - opWeight st1.opStack := hv4
                split at hrun
                next hallow =>
                  refine finishExpr_ok _ hspec _ st' v ?_ hrun
                  show (st4.valueStack.length : Int) ≤ opWeight st4.opStack + 1
                  rw [hops4]
                  simp only [opWeight]
                  omega
                next => simp at hrun
              next st4 sent hpb2 =>
                rw [if_pos hsep] at hrun
                obtain ⟨hs, hdec, hsnone, hw4, hf4⟩ :=
                  popToBracketF_found _ hspec st1.opStack _ st4 sent (by rfl) hpb2
                have hw4' : (st4.valueStack.length : Int) - opWeight (sent :: st4.opStack) =
                    (st1.valueStack.length : Int) - opWeight st1.opStack := hw4
                have hwfs : WFopsB (sent :: st4.opStack) = true := by
                  have h6 := hinv1.wf
                  rw [hdec] at h6
                  exact WFopsB_suffix hs _ h6
                have hsok : (sentOKB sent st4.opStack && WFopsB st4.opStack) = true := by
                  rw [WFopsB, hsnone] at hwfs
                  exact hwfs
                rw [Bool.and_eq_true] at hsok
                obtain ⟨hsOK, hwft⟩ := hsok
                split at hrun
                next hpc0 => simp at hrun
                next hpcne =>
                  refine ih allow _ st' v ?_ hrun
                  obtain ⟨f, t, hteq, hfn, hge, hle⟩ := sentOKB_spec sent st4.opStack hsOK hpcne
                  have hWsent : opWeight (sent :: st4.opStack) =
                      (hConsumes f - 1 - sent.parameterCount) + opWeight t := by
                    rw [hteq, opWeight_none_cons sent f t hsnone, if_pos hfn]
                  have hsnone2 : ({ sent with parameterCount := sent.parameterCount - 1 } :
                      Operator).handler = none := hsnone
                  have hWsent2 : opWeight ({ sent with parameterCount :=
                      sent.parameterCount - 1 } :: st4.opStack) =
                      (hConsumes f - 1 - (sent.parameterCount - 1)) + opWeight t := by
                    rw [hteq, opWeight_none_cons _ f t hsnone2, if_pos hfn]
                  obtain ⟨hl4, hc4, hb4, hp4, he4⟩ := hf4
                  have hp4' : st4.pendingCommaCount = st1.pendingCommaCount := hp4
                  refine { wf := ?_, count := ?_, pnn := ?_, pend := ?_, binp := ?_ }
                  · show WFopsB ({ sent with parameterCount := sent.parameterCount - 1 } ::
                      st4.opStack) = true
                    rw [WFopsB, hsnone2, Bool.and_eq_true]
                    refine ⟨?_, hwft⟩
                    show sentOKB { sent with parameterCount := sent.parameterCount - 1 }
                      st4.opStack = true
                    rw [hteq]
                    unfold sentOKB
                    simp only []
                    rw [if_pos hfn, Bool.and_eq_true, decide_eq_true_eq, decide_eq_true_eq]
                    constructor
                    · show (0 : Int) ≤ sent.parameterCount - 1
                      omega
                    · show sent.parameterCount - 1 ≤ hConsumes f - 1
                      omega
                  · show (st4.valueStack.length : Int) + st4.pendingCommaCount =
                      opWeight ({ sent with parameterCount := sent.parameterCount - 1 } ::
                        st4.opStack) + bitOf TYPE.valueOrUnary
                    rw [hWsent2, hp4', hpb]
                    simp only [bitOf]
                    omega
                  · show 0 ≤ st4.pendingCommaCount
                    rw [hp4', hpb]
                  · intro hne
                    have hne' : st4.pendingCommaCount ≠ 0 := hne
                    rw [hp4', hpb] at hne'
                    exact absurd rfl hne'
                  · intro hb
                    show st4.pendingCommaCount = 0
                    rw [hp4', hpb]
            · rw [if_neg hsep] at hrun
              split at hrun
              next => simp at hrun
              next st4 e hpb2 => simp at hrun
              next st4 hpb2 =>
                obtain ⟨hops4, hv4, hf4⟩ :=
                  popToBracketF_none _ hspec st1.opStack _ st4 (by rfl) hpb2
                have hv4' : (st4.valueStack.length : Int) =
                    (st1.valueStack.length : Int) - opWeight st1.opStack := hv4
                split at hrun
                next hallow =>
                  refine finishExpr_ok _ hspec _ st' v ?_ hrun
                  show (st4.valueStack.length : Int) ≤ opWeight st4.opStack + 1
                  rw [hops4]
                  simp only [opWeight]
                  omega
                next => simp at hrun
              next st4 sent hpb2 =>
                rw [if_neg hsep] at hrun
                obtain ⟨hs, hdec, hsnone, hw4, hf4⟩ :=
                  popToBracketF_found _ hspec st1.opStack _ st4 sent (by rfl) hpb2
                have hw4' : (st4.valueStack.length : Int) - opWeight (sent :: st4.opStack) =
                    (st1.valueStack.length : Int) - opWeight st1.opStack := hw4
                have hwfs : WFopsB (sent :: st4.opStack) = true := by
                  have h6 := hinv1.wf
                  rw [hdec] at h6
                  exact WFopsB_suffix hs _ h6
                have hsok : (sentOKB sent st4.opStack && WFopsB st4.opStack) = true := by
                  rw [WFopsB, hsnone] at hwfs
                  exact hwfs
                rw [Bool.and_eq_true] at hsok
                obtain ⟨hsOK, hwft⟩ := hsok
                split at hrun
                next hpcne => simp at hrun
                next hpc0 =>
                  have hpc : sent.parameterCount = 0 := by omega
                  refine ih allow _ st' v ?_ hrun
                  obtain ⟨hl4, hc4, hb4, hp4, he4⟩ := hf4
                  have hp4' : st4.pendingCommaCount = st1.pendingCommaCount := hp4
                  have he4' : st4.expected = st1.expected := he4
                  have hWrel : opWeight (sent :: st4.opStack) = opWeight st4.opStack := by
                    cases hteq : st4.opStack with
                    | nil =>
                      rw [opWeight_none_nil sent hsnone]
                      simp [opWeight]
                    | cons f t =>
                      rw [opWeight_none_cons sent f t hsnone]
                      by_cases hfn : isFnTok f = true
                      · rw [if_pos hfn]
                        obtain ⟨hf, hfh⟩ : ∃ hf2, f.handler = some hf2 := by
                          have h2 := hfn
                          rw [isFnTok, Bool.and_eq_true] at h2
                          exact Option.isSome_iff_exists.mp h2.1
                        rw [opWeight_cons_handler f t hf hfh, hpc]
                        have hcf : hConsumes f = ((consumes hf : Nat) : Int) := by
                          simp [hConsumes, hfh]
                        rw [hcf]
                        omega
                      · rw [if_neg hfn]
                  refine { wf := hwft, count := ?_, pnn := ?_, pend := ?_, binp := ?_ }
                  · show (st4.valueStack.length : Int) + st4.pendingCommaCount =
                      opWeight st4.opStack + bitOf st4.expected
                    rw [hp4', hpb, he4', heqexp]
                    simp only [bitOf]
                    omega
                  · show 0 ≤ st4.pendingCommaCount
                    rw [hp4', hpb]
                  · intro hne
                    have hne' : st4.pendingCommaCount ≠ 0 := hne
                    rw [hp4', hpb] at hne'
                    exact absurd rfl hne'
                  · intro hb
                    show st4.pendingCommaCount = 0
                    rw [hp4', hpb]

/-- C7: when the input is exhausted the operator stack is drained, an
open-bracket sentinel encountered there raises `MismatchedParentheses`, an
empty value stack after the drain raises `EmptyExpression`, and every
successful return of `EvaluateExpression` leaves exactly one value (the
result) on the value stack and an empty operator stack. -/
theorem C7_stack_discipline :
    (∀ (apply : Handler → PState → Option (PState × Except AsmErr Unit)) (st : PState)
       (op : Operator) (rest : List Operator), op.handler = none →
       drainF apply (op :: rest) st =
         some ({ st with opStack := rest }, .error .mismatchedParentheses)) ∧
    (∀ (apply : Handler → PState → Option (PState × Except AsmErr Unit)) (st st2 : PState),
       drainF apply st.opStack st = some (st2, .ok ()) → st2.valueStack = [] →
       finishExpr apply st = some (st2, .error .emptyExpression)) ∧
    (∀ (ctx : Ctx) (fuel : Nat) (allow : Bool) (line : List Char) (st' : PState) (v : Value),
       EvaluateExpression ctx fuel allow line = some (st', .ok v) →
       st'.valueStack = [v] ∧ st'.opStack = []) := by
  refine ⟨?_, ?_, ?_⟩
  · intro apply st op rest hh
    rw [drainF, hh]
  · intro apply st st2 hdr hvs
    unfold finishExpr
    rw [hdr]
    simp only []
    rw [hvs]
    rfl
  · intro ctx fuel allow line st' v hrun
    refine evalLoop_ok ctx fuel allow _ st' v ?_ hrun
    exact { wf := rfl, count := rfl, pnn := le_refl 0,
            pend := fun hne => absurd rfl hne, binp := fun _ => rfl }

/-- C7 witness: evaluating the line `1` succeeds and the theorem yields the
final stack contents. -/
theorem C7_witness :
    ({ line := "1".toList, column := 1, valueStack := [Value.num 1], opStack := [],
       bracketCount := 0, pendingCommaCount := 0, expected := TYPE.binary,
       randIdx := 0 } : PState).valueStack = [Value.num 1] ∧
    ({ line := "1".toList, column := 1, valueStack := [Value.num 1], opStack := [],
       bracketCount := 0, pendingCommaCount := 0, expected := TYPE.binary,
       randIdx := 0 } : PState).opStack = [] :=
  C7_stack_discipline.2.2 testCtx 9 false ("1".toList) _ (Value.num 1) (by rfl)

/-- C10: on a well-formed operator stack a bare open-bracket sentinel — one
whose neighbour below is not a named-function row — always carries an
expected-comma count of 0, so a `,` that pops back to it takes the
`ParameterCount` branch; concretely both `(1,2)` and `[1,2]` raise
`ParameterCount`. -/
theorem C10_bare_bracket_comma :
    (∀ (sent : Operator) (rest : List Operator), WFopsB (sent :: rest) = true →
       sent.handler = none →
       (match rest with | [] => true | f :: _ => !isFnTok f) = true →
       sent.parameterCount = 0) ∧
    evalResult testCtx 20 false ("(1,2)".toList) = some (.error .parameterCount) ∧
    evalResult testCtx 20 false ("[1,2]".toList) = some (.error .parameterCount) := by
  refine ⟨?_, by rfl, by rfl⟩
  intro sent rest hwf hh hbare
  have hsok : sentOKB sent rest = true := by
    rw [WFopsB, hh, Bool.and_eq_true] at hwf
    exact hwf.1
  unfold sentOKB at hsok
  cases rest with
  | nil =>
    simp only [] at hsok
    simpa using hsok
  | cons f t =>
    have hbare' : isFnTok f = false := by simpa using hbare
    simp only [] at hsok
    rw [if_neg (by simp [hbare'])] at hsok
    simpa using hsok

/-- C10 witness: the open-parenthesis sentinel row itself, on an otherwise
empty stack, is forced to a zero comma count. -/
theorem C10_witness :
    (⟨"(".toList, -1, 0, none⟩ : Operator).parameterCount = 0 :=
  C10_bare_bracket_comma.1 ⟨"(".toList, -1, 0, none⟩ [] (by rfl) rfl (by rfl)
